import Mathlib

/-!
Verification of the hex-grid analyzer (`maps/grid_analyzer.py`).

This file gives a shallow embedding of the analyzer's data model and of the
functions the verified properties are about:

* `constraint_matched_for_pair` — the module-level match predicate of the
  matched-pair constraint solver;
* `solve_constraints_from_matched_pairs` — Strategy A of the constraint solver;
* `_extract_lines_from_side` / `_extract_vertical_segments_from_column` — the
  per-side and per-column vertical segment extractors;
* `_find_matching_left_right_segments` — the greedy left/right pair matcher;
* `_count_vertical_segments` / `_group_vertical_segments` — the row counter;
* `_find_map_boundaries` — boundary detection over the directional projections;
* `_calculate_grid_from_boundaries` — the grid-parameter assembler.

Conventions of the embedding:

* Python floats are modelled as exact rationals (`ℚ`).  All concrete inputs
  appearing in the theorems below evaluate the float expressions of the source
  at exactly representable values, so the rational model agrees with IEEE
  semantics there.
* Python `//` (floor division) is `Int.fdiv`; Python `int(·)` (truncation
  toward zero) is `pyInt`.
* Python dictionaries holding the per-function results are modelled as
  structures; a Python `set` accumulator is modelled as a duplicate-free list
  in insertion order (the loops verified here insert at most one element, so
  the unspecified iteration order of a Python set is not observable).
* Because kernel reduction of `ℚ` arithmetic is not feasible, every rational
  definition that must be evaluated on concrete inputs has an integer-only
  shadow (suffix `Fast`) together with a proved equivalence lemma; concrete
  evaluations rewrite with the equivalence first.
-/

namespace GridAnalyzer

/-- `MIN_LINE_LENGTH = 10` — only keep extracted lines of at least this length. -/
def MIN_LINE_LENGTH : ℕ := 10

/-- `MAX_ROWS = 20` — hard ceiling on the detected row count. -/
def MAX_ROWS : ℕ := 20

/-- Python's `int(·)` conversion on a real number: truncation toward zero. -/
def pyInt (q : ℚ) : ℤ := if 0 ≤ q then ⌊q⌋ else ⌈q⌉

/-- `close_enough(value, another, delta=0.01)` from `constraint_matched_for_pair`:
`abs(value - another) <= delta`. -/
def close_enough (value another : ℚ) (delta : ℚ := 1/100) : Bool :=
  decide (|value - another| ≤ delta)

/-- The inclusive integer interval `[a..b]` as a list, mirroring Python's
`range(a, b + 1)`. -/
def intRange (a b : ℤ) : List ℤ :=
  (List.range (b + 1 - a).toNat).map (fun i : ℕ => a + (i : ℤ))

/-- The `for hw in range(midhw - err, midhw + err + 1)` loop body of
`constraint_matched_for_pair` (source lines 1876–1892): skip widths outside
`[min_width, max_width]`; skip widths where the span is not close to a whole
number of widths; return on the full-tile or half-tile image-width test. -/
def searchHw (span_width image_width min_width max_width : ℤ) :
    List ℤ → Bool × Bool × ℤ
  | [] => (false, false, -1)
  | hw :: rest =>
    if hw < min_width ∨ max_width < hw then
      searchHw span_width image_width min_width max_width rest
    else
      let ncols_in_span : ℚ := (span_width : ℚ) / (hw : ℚ)
      let ncols_in_image : ℚ := (image_width : ℚ) / (hw : ℚ)
      let ncols_in_image2 : ℚ := ((2 * image_width : ℤ) : ℚ) / (hw : ℚ)
      if ¬ close_enough ncols_in_span ((pyInt (ncols_in_span + 1/2) : ℤ) : ℚ) then
        searchHw span_width image_width min_width max_width rest
      else if close_enough ncols_in_image ((pyInt (ncols_in_image + 1/2) : ℤ) : ℚ) then
        (true, true, hw)
      else if close_enough (2 * ncols_in_image) ((pyInt (ncols_in_image2 + 1/2) : ℤ) : ℚ) then
        (true, false, hw)
      else
        searchHw span_width image_width min_width max_width rest

/-- `constraint_matched_for_pair(cols, lx, rx, image_width, min_width=40, max_width=80)`
(source lines 1861–1894). Returns `(matched, needs_half_col, hex_width)`. -/
def constraint_matched_for_pair (cols lx rx image_width : ℤ)
    (min_width : ℤ := 40) (max_width : ℤ := 80) : Bool × Bool × ℤ :=
  let span_width := rx - lx
  if span_width ≤ 0 then (false, false, 0)
  else
    let midhw := image_width.fdiv cols
    searchHw span_width image_width min_width max_width (intRange (midhw - 3) (midhw + 3))

/-! ### Integer shadow of the match predicate -/

/-- Shadow of `pyInt (a/b + 1/2)` for `0 < b`, `0 ≤ 2*a + b`: Euclidean division. -/
def pyIntHalf (a b : ℤ) : ℤ := (2 * a + b) / (2 * b)

/-- Shadow of `close_enough (a/b) n (1/100)` for `0 < b`. -/
def closeNum (a b n : ℤ) : Bool := decide (|100 * a - 100 * n * b| ≤ b)

/-- Integer-only shadow of `searchHw`. -/
def searchHwFast (span_width image_width min_width max_width : ℤ) :
    List ℤ → Bool × Bool × ℤ
  | [] => (false, false, -1)
  | hw :: rest =>
    if hw < min_width ∨ max_width < hw then
      searchHwFast span_width image_width min_width max_width rest
    else
      if ¬ closeNum span_width hw (pyIntHalf span_width hw) then
        searchHwFast span_width image_width min_width max_width rest
      else if closeNum image_width hw (pyIntHalf image_width hw) then
        (true, true, hw)
      else if closeNum (2 * image_width) hw (pyIntHalf (2 * image_width) hw) then
        (true, false, hw)
      else
        searchHwFast span_width image_width min_width max_width rest

/-- Integer-only shadow of `constraint_matched_for_pair`. -/
def constraint_matched_for_pairFast (cols lx rx image_width : ℤ)
    (min_width : ℤ := 40) (max_width : ℤ := 80) : Bool × Bool × ℤ :=
  let span_width := rx - lx
  if span_width ≤ 0 then (false, false, 0)
  else
    let midhw := image_width.fdiv cols
    searchHwFast span_width image_width min_width max_width (intRange (midhw - 3) (midhw + 3))

/-! ### Line segments and the matched-pair constraint solver (Strategy A)

`_solve_constraints_from_matched_pairs` (source lines 1091–1175).
-/

/-- A vertical line segment as produced by `_extract_lines_from_side`
(dict keys `start_x`, `start_y`, `end_y`, `length`). -/
structure LineSeg where
  start_x : ℤ
  start_y : ℤ
  end_y : ℤ
  length : ℤ
deriving DecidableEq

/-- One candidate entry of `_solve_constraints_from_matched_pairs`
(source lines 1150–1158). -/
structure ColumnCandidate where
  cols : ℤ
  supporting_pairs : List (ℕ × ℕ)
  num_supporting_pairs : ℕ
  hex_width_samples : List ℤ
  avg_hex_width : ℚ
  has_half_tile : Bool
  confidence : ℕ
deriving DecidableEq

/-- Result dict of `_solve_constraints_from_matched_pairs` (source lines 1171–1175). -/
structure SolveResult where
  column_candidates : List ColumnCandidate
  top_candidate : Option ColumnCandidate
  total_candidates : ℕ
deriving DecidableEq

/-- The per-column-count mutable state of the scan loop of
`_solve_constraints_from_matched_pairs`: the `col_matched` flag, the entries
added to the set `cols_matched[numcols]` (kept as a duplicate-free list in
insertion order), and the last value written to
`needs_extra_half_tile_with_ncols[numcols]`. -/
structure ScanState where
  col_matched : Bool
  recorded : List (ℕ × ℕ × ℤ)
  half : Option Bool
deriving DecidableEq

def initScanState : ScanState := ⟨false, [], none⟩

/-- The `for rx in range(right_startx, right_endx + 1)` loop (source lines
1127–1133): on the first match, record the `(left_idx, right_idx, hex_width)`
triple, set the half-tile flag and `col_matched`, and break. -/
def rxStep (numcols image_width : ℤ) (li ri : ℕ) (lx : ℤ) (st : ScanState) :
    List ℤ → ScanState
  | [] => st
  | rx :: rest =>
    let r := constraint_matched_for_pair numcols lx rx image_width
    if r.1 then
      { col_matched := true,
        recorded :=
          if (li, ri, r.2.2) ∈ st.recorded then st.recorded
          else st.recorded ++ [(li, ri, r.2.2)],
        half := some r.2.1 }
    else rxStep numcols image_width li ri lx st rest

/-- The `for lx in range(left_startx, left_endx + 1)` loop (source lines
1125–1133): `if col_matched: break` at the top of each iteration. -/
def lxStep (numcols image_width : ℤ) (li ri : ℕ) (rxs : List ℤ) (st : ScanState) :
    List ℤ → ScanState
  | [] => st
  | lx :: rest =>
    if st.col_matched then st
    else lxStep numcols image_width li ri rxs (rxStep numcols image_width li ri lx st rxs) rest

/-- The `for left_idx, right_idx in matched_pairs` loop (source lines
1116–1133).  An index outside the segment lists would raise `IndexError` in
the source; the embedding skips such a pair (all inputs considered in the
theorems are well-formed). -/
def pairFold (numcols image_width error_margin : ℤ) (left_lines right_lines : List LineSeg)
    (st : ScanState) : List (ℕ × ℕ) → ScanState
  | [] => st
  | (li, ri) :: rest =>
    match left_lines.get? li, right_lines.get? ri with
    | some ll, some rl =>
      let st' := lxStep numcols image_width li ri
        (intRange (rl.start_x - error_margin) (rl.start_x + error_margin)) st
        (intRange (ll.start_x - error_margin) (ll.start_x + error_margin))
      pairFold numcols image_width error_margin left_lines right_lines st' rest
    | _, _ => pairFold numcols image_width error_margin left_lines right_lines st rest

/-- Building one candidate dict for a column count that received evidence
(source lines 1139–1160). -/
def mkCandidate (numcols : ℤ) (st : ScanState) : ColumnCandidate :=
  let supporting_pairs := st.recorded.map (fun t => (t.1, t.2.1))
  let hex_widths := st.recorded.map (fun t => t.2.2)
  { cols := numcols,
    supporting_pairs := supporting_pairs,
    num_supporting_pairs := supporting_pairs.length,
    hex_width_samples := hex_widths,
    avg_hex_width :=
      if hex_widths = [] then 0
      else ((hex_widths.map (fun z : ℤ => (z : ℚ))).sum) / (hex_widths.length : ℚ),
    has_half_tile := st.half.getD false,
    confidence := supporting_pairs.length }

/-- Sort relation of line 1163: Python `sort(key=lambda x: (x['confidence'], -x['cols']),
reverse=True)` — `a` may precede `b` iff `key(a) ≥ key(b)` lexicographically.
Python's sort is stable; `List.insertionSort` with this total preorder is a
stable sort, so it models `list.sort` exactly (and on the lists produced below
all column counts are distinct, so the order is unique anyway). -/
def candRel (a b : ColumnCandidate) : Prop :=
  b.confidence < a.confidence ∨ (a.confidence = b.confidence ∧ a.cols ≤ b.cols)

instance candRel.instDecidable : DecidableRel candRel := fun a b =>
  inferInstanceAs (Decidable (b.confidence < a.confidence ∨
    (a.confidence = b.confidence ∧ a.cols ≤ b.cols)))

instance candRel.instIsTotal : IsTotal ColumnCandidate candRel :=
  ⟨fun a b => by unfold candRel; omega⟩

instance candRel.instIsTrans : IsTrans ColumnCandidate candRel :=
  ⟨fun a b c h1 h2 => by unfold candRel at h1 h2 ⊢; omega⟩

/-- `_solve_constraints_from_matched_pairs(matched_pairs, left_lines, right_lines,
image_width, error_margin=3)` (source lines 1091–1175).  Candidates are built for
the ascending keys of `cols_matched` and then sorted by the key of line 1163;
the stored `column_candidates` list is the sorted one and `top_candidate` its
head. -/
def solve_constraints_from_matched_pairs (matched_pairs : List (ℕ × ℕ))
    (left_lines right_lines : List LineSeg) (image_width : ℤ)
    (error_margin : ℤ := 3) : SolveResult :=
  let column_candidates := (intRange 5 99).filterMap (fun numcols =>
    let st := pairFold numcols image_width error_margin left_lines right_lines
      initScanState matched_pairs
    if st.recorded = [] then none else some (mkCandidate numcols st))
  let sorted := List.insertionSort candRel column_candidates
  { column_candidates := sorted,
    top_candidate := sorted.head?,
    total_candidates := sorted.length }

/-! Integer-only shadow of the solver. -/

def rxStepFast (numcols image_width : ℤ) (li ri : ℕ) (lx : ℤ) (st : ScanState) :
    List ℤ → ScanState
  | [] => st
  | rx :: rest =>
    let r := constraint_matched_for_pairFast numcols lx rx image_width
    if r.1 then
      { col_matched := true,
        recorded :=
          if (li, ri, r.2.2) ∈ st.recorded then st.recorded
          else st.recorded ++ [(li, ri, r.2.2)],
        half := some r.2.1 }
    else rxStepFast numcols image_width li ri lx st rest

def lxStepFast (numcols image_width : ℤ) (li ri : ℕ) (rxs : List ℤ) (st : ScanState) :
    List ℤ → ScanState
  | [] => st
  | lx :: rest =>
    if st.col_matched then st
    else lxStepFast numcols image_width li ri rxs
      (rxStepFast numcols image_width li ri lx st rxs) rest

def pairFoldFast (numcols image_width error_margin : ℤ)
    (left_lines right_lines : List LineSeg) (st : ScanState) : List (ℕ × ℕ) → ScanState
  | [] => st
  | (li, ri) :: rest =>
    match left_lines.get? li, right_lines.get? ri with
    | some ll, some rl =>
      let st' := lxStepFast numcols image_width li ri
        (intRange (rl.start_x - error_margin) (rl.start_x + error_margin)) st
        (intRange (ll.start_x - error_margin) (ll.start_x + error_margin))
      pairFoldFast numcols image_width error_margin left_lines right_lines st' rest
    | _, _ => pairFoldFast numcols image_width error_margin left_lines right_lines st rest

def mkCandidateFast (numcols : ℤ) (st : ScanState) : ColumnCandidate :=
  let supporting_pairs := st.recorded.map (fun t => (t.1, t.2.1))
  let hex_widths := st.recorded.map (fun t => t.2.2)
  { cols := numcols,
    supporting_pairs := supporting_pairs,
    num_supporting_pairs := supporting_pairs.length,
    hex_width_samples := hex_widths,
    avg_hex_width :=
      if hex_widths = [] then 0 else Rat.divInt hex_widths.sum hex_widths.length,
    has_half_tile := st.half.getD false,
    confidence := supporting_pairs.length }

def solveFast (matched_pairs : List (ℕ × ℕ)) (left_lines right_lines : List LineSeg)
    (image_width : ℤ) (error_margin : ℤ := 3) : SolveResult :=
  let column_candidates := (intRange 5 99).filterMap (fun numcols =>
    let st := pairFoldFast numcols image_width error_margin left_lines right_lines
      initScanState matched_pairs
    if st.recorded = [] then none else some (mkCandidateFast numcols st))
  let sorted := List.insertionSort candRel column_candidates
  { column_candidates := sorted,
    top_candidate := sorted.head?,
    total_candidates := sorted.length }

/-! ### Claims C1 and C2: evidence recording and candidate selection -/

/-- Invariant of the per-column scan state: before the first match the
recorded list is empty; from the first match on `col_matched` is set and
exactly one triple is recorded. -/
def ScanInv (st : ScanState) : Prop :=
  (st.col_matched = false ∧ st.recorded = []) ∨
  (st.col_matched = true ∧ st.recorded.length = 1)

/-- Concrete solver input for the C1 counterexample: two matched pairs, both
spanning 300 px, image width 2400, error margin 0. -/
def leftA : List LineSeg := [⟨100, 0, 59, 60⟩, ⟨700, 100, 159, 60⟩]

def rightA : List LineSeg := [⟨400, 0, 59, 60⟩, ⟨1000, 100, 159, 60⟩]

def pairsA : List (ℕ × ℕ) := [(0, 0), (1, 1)]

/-- Concrete solver input for the C1/C2 witnesses: one pair spanning 50 px,
image width 250, error margin 0; the only candidate has `cols = 5`. -/
def leftW : List LineSeg := [⟨0, 0, 59, 60⟩]

def rightW : List LineSeg := [⟨50, 0, 59, 60⟩]

def pairsW : List (ℕ × ℕ) := [(0, 0)]

def candW : ColumnCandidate :=
  { cols := 5, supporting_pairs := [(0, 0)], num_supporting_pairs := 1,
    hex_width_samples := [50], avg_hex_width := 50, has_half_tile := true,
    confidence := 1 }

/-- Concrete solver input for the C2 counterexample: one pair spanning 300 px,
image width 2400, error margin 0; many column counts are supported, all with
confidence 1. -/
def leftB : List LineSeg := [⟨100, 0, 59, 60⟩]

def rightB : List LineSeg := [⟨400, 0, 59, 60⟩]

def pairsB : List (ℕ × ℕ) := [(0, 0)]

def candB31 : ColumnCandidate :=
  { cols := 31, supporting_pairs := [(0, 0)], num_supporting_pairs := 1,
    hex_width_samples := [75], avg_hex_width := 75, has_half_tile := true,
    confidence := 1 }

def candB51 : ColumnCandidate :=
  { cols := 51, supporting_pairs := [(0, 0)], num_supporting_pairs := 1,
    hex_width_samples := [50], avg_hex_width := 50, has_half_tile := true,
    confidence := 1 }

/-! ### Rasters and vertical segment extraction -/

/-- A single-channel raster: `H × W` pixels, `pix y x = true` iff the pixel at
row `y`, column `x` is foreground (`> 0` in the source). -/
structure Raster where
  H : ℕ
  W : ℕ
  pix : ℕ → ℕ → Bool

/-- Which side projection `_extract_lines_from_side` works on. -/
inductive Side where
  | left
  | right
deriving DecidableEq

/-- The anchor x of a row (source lines 451–458): `np.where(projection[y,:] > 0)[0]`,
then the leftmost (`left` side) or rightmost (`right` side) foreground pixel;
`none` when the row has no foreground pixel. -/
def rowAnchor (proj : Raster) (side : Side) (y : ℕ) : Option ℕ :=
  let row_pixels := (List.range proj.W).filter (fun x => proj.pix y x)
  match side with
  | Side.left => row_pixels.head?
  | Side.right => row_pixels.getLast?

/-- The `for y in range(height)` state machine of `_extract_lines_from_side`
(source lines 446–509), processing the list of remaining per-row anchors.
`y` is the current row index, `cur` is `current_line`, `gap` is `gap_count`,
`acc` the emitted lines.  After the rows are exhausted the pending line is
flushed if long enough (source lines 506–508). -/
def extractGo (x_tolerance gap_tolerance : ℕ) :
    List (Option ℕ) → ℕ → Option LineSeg → ℕ → List LineSeg → List LineSeg
  | [], _, cur, _, acc =>
    match cur with
    | none => acc
    | some l => if (MIN_LINE_LENGTH : ℤ) ≤ l.length then acc ++ [l] else acc
  | a :: rest, y, cur, gap, acc =>
    match a with
    | some x =>
      match cur with
      | none =>
        extractGo x_tolerance gap_tolerance rest (y + 1)
          (some ⟨(x : ℤ), (y : ℤ), (y : ℤ), 1⟩) 0 acc
      | some l =>
        if |(x : ℤ) - l.start_x| ≤ (x_tolerance : ℤ) then
          extractGo x_tolerance gap_tolerance rest (y + 1)
            (some { l with end_y := (y : ℤ), length := (y : ℤ) - l.start_y + 1 }) 0 acc
        else
          extractGo x_tolerance gap_tolerance rest (y + 1)
            (some ⟨(x : ℤ), (y : ℤ), (y : ℤ), 1⟩) 0
            (if (MIN_LINE_LENGTH : ℤ) ≤ l.length then acc ++ [l] else acc)
    | none =>
      match cur with
      | none => extractGo x_tolerance gap_tolerance rest (y + 1) none gap acc
      | some l =>
        if gap + 1 ≤ gap_tolerance then
          extractGo x_tolerance gap_tolerance rest (y + 1)
            (some { l with end_y := (y : ℤ), length := (y : ℤ) - l.start_y + 1 })
            (gap + 1) acc
        else
          extractGo x_tolerance gap_tolerance rest (y + 1) none 0
            (if (MIN_LINE_LENGTH : ℤ) ≤ l.length then acc ++ [l] else acc)

/-- `_extract_lines_from_side(projection, side, x_tolerance, gap_tolerance)`
(source lines 437–510). -/
def extract_lines_from_side (proj : Raster) (side : Side)
    (x_tolerance gap_tolerance : ℕ) : List LineSeg :=
  extractGo x_tolerance gap_tolerance
    ((List.range proj.H).map (rowAnchor proj side)) 0 none 0 []

/-! ### Claim C7: greedy 1:1 pair matching -/

instance : Inhabited LineSeg := ⟨⟨0, 0, 0, 0⟩⟩

/-- Vertical overlap length of two segments: `min(end_y) - max(start_y) + 1`. -/
def segOverlapLen (a b : LineSeg) : ℤ :=
  min a.end_y b.end_y - max a.start_y b.start_y + 1

/-- One entry of `potential_matches` (source lines 610–616). -/
structure PMatch where
  left_idx : ℕ
  right_idx : ℕ
  overlap_length : ℤ
  left_length : ℤ
  right_length : ℤ
deriving DecidableEq

/-- The candidate collection loop of `_find_matching_left_right_segments`
(source lines 597–616): all index pairs with vertical overlap ≥ 20 px. -/
def potential_matches (left_lines right_lines : List LineSeg) : List PMatch :=
  left_lines.enum.flatMap (fun li =>
    right_lines.enum.filterMap (fun ri =>
      let overlap_start := max li.2.start_y ri.2.start_y
      let overlap_end := min li.2.end_y ri.2.end_y
      if overlap_start ≤ overlap_end then
        let overlap_length := overlap_end - overlap_start + 1
        if 20 ≤ overlap_length then
          some ⟨li.1, ri.1, overlap_length, li.2.length, ri.2.length⟩
        else none
      else none))

/-- Sort relation of line 619: `sort(key=lambda x: x['overlap_length'],
reverse=True)` — descending overlap, stable (modelled with the stable
`List.insertionSort`). -/
def pmRel (a b : PMatch) : Prop := b.overlap_length ≤ a.overlap_length

instance pmRel.instDecidable : DecidableRel pmRel := fun a b =>
  inferInstanceAs (Decidable (b.overlap_length ≤ a.overlap_length))

instance pmRel.instIsTotal : IsTotal PMatch pmRel :=
  ⟨fun a b => by unfold pmRel; omega⟩

instance pmRel.instIsTrans : IsTrans PMatch pmRel :=
  ⟨fun a b c h1 h2 => by unfold pmRel at h1 h2 ⊢; omega⟩

/-- The greedy commit loop of `_find_matching_left_right_segments` (source
lines 621–634): commit a pair iff neither of its segments is already used. -/
def greedy_commit : List PMatch → List ℕ → List ℕ → List (ℕ × ℕ)
  | [], _, _ => []
  | m :: rest, used_left, used_right =>
    if m.left_idx ∉ used_left ∧ m.right_idx ∉ used_right then
      (m.left_idx, m.right_idx) ::
        greedy_commit rest (m.left_idx :: used_left) (m.right_idx :: used_right)
    else greedy_commit rest used_left used_right

/-- `_find_matching_left_right_segments(left_lines, right_lines)` (source lines
590–644). -/
def find_matching_left_right_segments (left_lines right_lines : List LineSeg) :
    List (ℕ × ℕ) :=
  greedy_commit
    (List.insertionSort pmRel (potential_matches left_lines right_lines)) [] []

/-- Witness input for C7: one left and one right segment overlapping on rows
10–59 (overlap 50 ≥ 20). -/
def lw0 : LineSeg := ⟨0, 0, 59, 60⟩

def rw0 : LineSeg := ⟨50, 10, 69, 60⟩

/-! ### Claim C10: tolerated blank rows are absorbed into a segment's extent -/

/-- There is a foreground row (an anchored row) inside the segment within
`gap_tolerance` rows of its recorded end: the recorded `end_y` overshoots the
last anchored row by at most `gap_tolerance`. -/
def lineHasFg (A : ℕ → Option ℕ) (gap_tolerance : ℕ) (l : LineSeg) : Prop :=
  ∃ yy : ℕ, (A yy).isSome = true ∧ l.start_y ≤ (yy : ℤ) ∧ (yy : ℤ) ≤ l.end_y ∧
    l.end_y ≤ (yy : ℤ) + (gap_tolerance : ℤ)

/-- Invariant of the running line at row `y`: the gap counter is within
tolerance, the recorded end is the previous row, and some anchored row lies in
the line within `gap` rows of its end. -/
def curInv (A : ℕ → Option ℕ) (gap_tolerance y : ℕ) : Option LineSeg → ℕ → Prop
  | none, _ => True
  | some l, gap => gap ≤ gap_tolerance ∧ l.end_y = (y : ℤ) - 1 ∧
      ∃ yy : ℕ, (A yy).isSome = true ∧ l.start_y ≤ (yy : ℤ) ∧ (yy : ℤ) ≤ l.end_y ∧
        l.end_y ≤ (yy : ℤ) + (gap : ℤ)

/-- Witness raster for C10: a single column, foreground on rows 0–11, blank
from row 12 on; with `gap_tolerance = 5` the returned segment ends at row 16,
five rows past the last foreground row. -/
def projC10 : Raster := ⟨18, 1, fun y _ => decide (y < 12)⟩

def segC10 : LineSeg := ⟨0, 0, 16, 17⟩

def projC8a : Raster :=
  ⟨34, 1, fun y _ => decide ((2 ≤ y ∧ y < 14) ∨ (19 ≤ y ∧ y < 31))⟩

def projC8b : Raster :=
  ⟨35, 1, fun y _ => decide ((2 ≤ y ∧ y < 14) ∨ (20 ≤ y ∧ y < 32))⟩

/-! ### Row counting: `_count_vertical_segments` and helpers (source 1417–1524) -/

/-- One continuous run found by `_find_continuous_segments` (source 1461–1485).
The Python dict key `end` is renamed `stop` (`end` is a Lean keyword). -/
structure RunSeg where
  start : ℕ
  stop : ℕ
  length : ℕ
deriving DecidableEq

/-- The `for i, val in enumerate(column_data)` loop of
`_find_continuous_segments` plus the final flush (source 1466–1483): `i` is the
running index, `startOpt` is the `start` variable, `acc` the collected runs. -/
def fcsGo : List Bool → ℕ → Option ℕ → List RunSeg → List RunSeg
  | [], i, startOpt, acc =>
    match startOpt with
    | none => acc
    | some s => acc ++ [⟨s, i - 1, i - s⟩]
  | v :: rest, i, startOpt, acc =>
    match v, startOpt with
    | true, none => fcsGo rest (i + 1) (some i) acc
    | false, some s => fcsGo rest (i + 1) none (acc ++ [⟨s, i - 1, i - s⟩])
    | _, _ => fcsGo rest (i + 1) startOpt acc

/-- `_find_continuous_segments` (source 1461–1485) on a boolean column. -/
def find_continuous_segments (column_data : List Bool) : List RunSeg :=
  fcsGo column_data 0 none []

/-- Column `col` of a raster, top to bottom (`combined_boundary[:, col]`). -/
def rasterColumn (g : Raster) (col : ℕ) : List Bool :=
  (List.range g.H).map (fun y => g.pix y col)

/-- The `for col in range(width)` collection loop of `_count_vertical_segments`
(source 1429–1435): columns with any foreground contribute their continuous
runs.  (The Python `if segments:` test before `extend` is a no-op: extending
by an empty list changes nothing.) -/
def count_segments_all (g : Raster) : List RunSeg :=
  (List.range g.W).flatMap (fun col =>
    if (rasterColumn g col).any (fun b => b) then
      find_continuous_segments (rasterColumn g col)
    else [])

/-- Center Y-position of a run: `(s['start'] + s['end']) / 2` (source 1496). -/
def segCenter (s : RunSeg) : ℚ :=
  ((s.start : ℚ) + (s.stop : ℚ)) / 2

/-- Doubled center `s['start'] + s['end']`, the integer shadow of `segCenter`. -/
def segCenter2 (s : RunSeg) : ℤ :=
  (s.start : ℤ) + (s.stop : ℤ)

/-- Consecutive differences of a sorted list (source 1506–1509), re-indexed:
Python iterates `i` over `range(1, len)` taking `l[i] - l[i-1]`. -/
def gapList (l : List ℚ) : List ℚ :=
  (List.range (l.length - 1)).map (fun i => l.getD (i + 1) 0 - l.getD i 0)

/-- Integer shadow of `gapList` on doubled centers. -/
def gapListZ (l : List ℤ) : List ℤ :=
  (List.range (l.length - 1)).map (fun i => l.getD (i + 1) 0 - l.getD i 0)

/-- `_group_vertical_segments` (source 1487–1524), returning only the level
count (the Python function returns mock `{'level': i}` dicts whose sole use is
`len`).  A gap is significant when it exceeds `total_height / 15`; the number
of levels is the number of significant gaps plus one; empty input gives 0
levels.  (Python collects the significant gap *indices*; only the count is
used, so we filter the gap values directly.) -/
def group_vertical_segments (segments : List RunSeg) (total_height : ℤ) : ℕ :=
  if segments = [] then 0
  else
    ((gapList (List.insertionSort (· ≤ ·) (segments.map segCenter))).filter
      (fun gap => decide ((total_height : ℚ) / 15 < gap))).length + 1

/-- Integer shadow of `group_vertical_segments`: doubled centers, and the
threshold comparison `gap/2 > th/15` multiplied out to `2*th < 15*gap`. -/
def group_vertical_segmentsFast (segments : List RunSeg) (total_height : ℤ) : ℕ :=
  if segments = [] then 0
  else
    ((gapListZ (List.insertionSort (· ≤ ·) (segments.map segCenter2))).filter
      (fun gap => decide (2 * total_height < 15 * gap))).length + 1

/-- The final guard of `_count_vertical_segments` (source 1456–1459): raise on
more than `MAX_ROWS` rows, otherwise clamp from below by 5.  The Python
`raise f"Found too many rows: {row_count}"` statement is modelled as an
`Except.error` carrying the diagnostic text (raising a plain string is itself
ill-typed in Python 3, but the control flow — abort instead of returning a
count — is what matters here). -/
def finish_row_count (row_count : ℕ) : Except String ℕ :=
  if MAX_ROWS < row_count then
    Except.error ("Found too many rows: " ++ toString row_count)
  else
    Except.ok (max 5 row_count)

/-- `_count_vertical_segments` (source 1417–1459).  Note: the grouping
threshold is derived from `combined_boundary.shape[0]` — the raster's own
height — and the `total_height` parameter is never read. -/
def count_vertical_segments (g : Raster) (total_height : ℤ) : Except String ℕ :=
  if g.H * g.W = 0 then Except.ok 7
  else if count_segments_all g = [] then Except.ok 7
  else finish_row_count (group_vertical_segments
    ((count_segments_all g).filter (fun s => 20 < s.length)) (g.H : ℤ))

/-- Integer shadow of `count_vertical_segments`. -/
def count_vertical_segmentsFast (g : Raster) (total_height : ℤ) : Except String ℕ :=
  if g.H * g.W = 0 then Except.ok 7
  else if count_segments_all g = [] then Except.ok 7
  else finish_row_count (group_vertical_segmentsFast
    ((count_segments_all g).filter (fun s => 20 < s.length)) (g.H : ℤ))

/-- The row count exactly as §4.4 of the spec words it: long segments, sorted
midpoints, gaps measured against the *given* `totalHeight / 15`, and
`rows = max(5, gapCount + 1)`. -/
def spec_row_count (g : Raster) (total_height : ℤ) : ℕ :=
  max 5 (group_vertical_segments
    ((count_segments_all g).filter (fun s => 20 < s.length)) total_height)

/-- Integer shadow of `spec_row_count`. -/
def spec_row_countFast (g : Raster) (total_height : ℤ) : ℕ :=
  max 5 (group_vertical_segmentsFast
    ((count_segments_all g).filter (fun s => 20 < s.length)) total_height)

def gridC5 : Raster :=
  ⟨150, 7, fun y x => decide (8 * x ≤ y ∧ y ≤ 8 * x + 20)⟩

def gridW5 : Raster :=
  ⟨150, 1, fun y _ => decide (y % 30 ≤ 20)⟩

/-! ### Boundary detection and grid-parameter assembly (source 48–232, 1660–1700) -/

def edge_thickness : ℕ := 3

def DEFAULT_NUM_STARTING_COLS : ℤ := 7

def DEFAULT_NUM_STARTING_ROWS : ℤ := 7

def HEIGHT_FACTOR : ℤ := 1

/-- Index of the first `true` in a boolean list (`np.argmax(data > 0)` under the
`np.any(data > 0)` guard), `none` when the list has no `true`. -/
def firstFg (l : List Bool) : Option ℕ :=
  l.findIdx? (fun b => b)

/-- Index of the last `true` (`len - 1 - np.argmax(data[::-1] > 0)` under the
same guard). -/
def lastFg (l : List Bool) : Option ℕ :=
  match l.reverse.findIdx? (fun b => b) with
  | none => none
  | some k => some (l.length - 1 - k)

/-- Row `row` of a raster, left to right (`edges[row, :]`). -/
def rasterRow (g : Raster) (row : ℕ) : List Bool :=
  (List.range g.W).map (fun x => g.pix row x)

/-- `view_from_top` (source 144–153): per column, the first edge pixel from the
top is marked with `edge_thickness` rows of thickness.  (Marks that would fall
below row `H` are simply outside the raster and never observed.) -/
def view_from_top (edges : Raster) : Raster :=
  ⟨edges.H, edges.W, fun y x =>
    match firstFg (rasterColumn edges x) with
    | none => false
    | some f => decide (f ≤ y ∧ y < f + edge_thickness)⟩

/-- `view_from_bottom` (source 155–164): per column, the last edge pixel from
the top, thickened upward. -/
def view_from_bottom (edges : Raster) : Raster :=
  ⟨edges.H, edges.W, fun y x =>
    match lastFg (rasterColumn edges x) with
    | none => false
    | some l => decide (y ≤ l ∧ l < y + edge_thickness)⟩

/-- `view_from_left` (source 166–175): per row, the first edge pixel from the
left, thickened rightward. -/
def view_from_left (edges : Raster) : Raster :=
  ⟨edges.H, edges.W, fun y x =>
    match firstFg (rasterRow edges y) with
    | none => false
    | some f => decide (f ≤ x ∧ x < f + edge_thickness)⟩

/-- `view_from_right` (source 177–186): per row, the last edge pixel from the
left, thickened leftward. -/
def view_from_right (edges : Raster) : Raster :=
  ⟨edges.H, edges.W, fun y x =>
    match lastFg (rasterRow edges y) with
    | none => false
    | some l => decide (x ≤ l ∧ l < x + edge_thickness)⟩

/-- `view_from_left_vertical` (source 188–210): per row, the first pixel that
is an edge pixel *and* lies in the vertical-edge mask (`np.intersect1d` of the
two position lists), thickened rightward.  The mask produced by
`_create_vertical_edge_mask` is cv2 morphology and enters as the parameter
`vmask`. -/
def view_from_left_vertical (edges vmask : Raster) : Raster :=
  ⟨edges.H, edges.W, fun y x =>
    match firstFg ((List.range edges.W).map (fun i => edges.pix y i && vmask.pix y i)) with
    | none => false
    | some f => decide (f ≤ x ∧ x < f + edge_thickness)⟩

/-- `view_from_right_vertical` (source 212–229): as above, taking the last
common position, thickened leftward. -/
def view_from_right_vertical (edges vmask : Raster) : Raster :=
  ⟨edges.H, edges.W, fun y x =>
    match lastFg ((List.range edges.W).map (fun i => edges.pix y i && vmask.pix y i)) with
    | none => false
    | some l => decide (x ≤ l ∧ l < x + edge_thickness)⟩

/-- The OR-combination loop of `_find_map_boundaries` (source 91–94): the
projections dict holds the six directional views *and* the
`vertical_edge_mask` itself (source 221–229), so all seven are OR-ed. -/
def combined_boundary (edges vmask : Raster) : Raster :=
  ⟨edges.H, edges.W, fun y x =>
    (view_from_top edges).pix y x || (view_from_bottom edges).pix y x ||
    (view_from_left edges).pix y x || (view_from_right edges).pix y x ||
    (view_from_left_vertical edges vmask).pix y x ||
    (view_from_right_vertical edges vmask).pix y x ||
    vmask.pix y x⟩

/-- `np.where(g > 0)` as a row-major list of `(y, x)` coordinates. -/
def nonzeroCoords (g : Raster) : List (ℕ × ℕ) :=
  (List.range g.H).flatMap (fun y =>
    ((List.range g.W).filter (fun x => g.pix y x)).map (fun x => (y, x)))

/-- The `boundaries` dict of `_find_map_boundaries` as consumed by
`_calculate_grid_from_boundaries`: the mandatory extent keys plus the optional
solver keys that `_analyze_hex_geometry` may add (`cols`, `rows`, `hex_width`,
`hex_height`, `center_spacing` are Python ints, `vertical_spacing` a float,
source 1292–1390). -/
structure BoundaryDict where
  top : ℤ
  bottom : ℤ
  left : ℤ
  right : ℤ
  height : ℤ
  width : ℤ
  cols : Option ℤ
  rows : Option ℤ
  hex_width : Option ℤ
  hex_height : Option ℤ
  center_spacing : Option ℤ
  vertical_spacing : Option ℚ
deriving DecidableEq

/-- `_find_map_boundaries` (source 120–124): extent of the combined boundary,
or `none` when it has no nonzero pixel.  The `_analyze_hex_geometry`
enrichment (`boundaries.update(hex_info)`, source 117–118) is a deep
cv2-dependent pipeline and enters as the parameter `hex_info`; it runs only
after the emptiness test has passed. -/
def find_map_boundaries (edges vmask : Raster)
    (hex_info : BoundaryDict → BoundaryDict) : Option BoundaryDict :=
  if nonzeroCoords (combined_boundary edges vmask) = [] then none
  else
    let ys := (nonzeroCoords (combined_boundary edges vmask)).map Prod.fst
    let xs := (nonzeroCoords (combined_boundary edges vmask)).map Prod.snd
    let top : ℤ := (ys.min?.getD 0 : ℕ)
    let bottom : ℤ := (ys.max?.getD 0 : ℕ)
    let left : ℤ := (xs.min?.getD 0 : ℕ)
    let right : ℤ := (xs.max?.getD 0 : ℕ)
    some (hex_info ⟨top, bottom, left, right, bottom - top, right - left,
      none, none, none, none, none, none⟩)

/-- The `GridParams` dataclass (source 25–35).  `row_offset`, `start_x`,
`start_y` and `spacing_x` are produced by integer arithmetic in
`_calculate_grid_from_boundaries`; `spacing_y` may be the float
`vertical_spacing`. -/
structure GridParams where
  hex_width : ℤ
  hex_height : ℤ
  rows : ℤ
  cols : ℤ
  row_offset : ℤ
  start_x : ℤ
  start_y : ℤ
  spacing_x : ℤ
  spacing_y : ℚ
deriving DecidableEq

/-- `_calculate_grid_from_boundaries` (source 1660–1700): `.get` defaults, the
`//` floor divisions for `start_x`, `start_y` and `row_offset`, and
`spacing_x = center_spacing` (defaulting to `hex_width`). -/
def calculate_grid_from_boundaries (b : BoundaryDict) (expected_tiles : ℤ) :
    GridParams :=
  let cols := b.cols.getD DEFAULT_NUM_STARTING_COLS
  let rows := b.rows.getD DEFAULT_NUM_STARTING_ROWS
  let hex_width := b.hex_width.getD 60
  let hex_height := b.hex_height.getD (hex_width * HEIGHT_FACTOR)
  let center_spacing := b.center_spacing.getD hex_width
  let spacing_x := center_spacing
  let spacing_y : ℚ := b.vertical_spacing.getD ((hex_height : ℚ) * (3 / 4))
  let start_x := b.left + Int.fdiv hex_width 2
  let start_y := b.top + Int.fdiv hex_height 2
  let row_offset := Int.fdiv spacing_x 2
  ⟨hex_width, hex_height, rows, cols, row_offset, start_x, start_y,
    spacing_x, spacing_y⟩

/-- `analyze_grid_structure` (source 48–71): edge detection (cv2 Canny) is
external, so the function is taken at its edge raster; a `none` from
`_find_map_boundaries` propagates as `none`, otherwise the grid parameters are
assembled. -/
def analyze_grid_structure (edges vmask : Raster)
    (hex_info : BoundaryDict → BoundaryDict) (expected_tiles : ℤ) :
    Option GridParams :=
  match find_map_boundaries edges vmask hex_info with
  | none => none
  | some b => some (calculate_grid_from_boundaries b expected_tiles)

def edges0 : Raster := ⟨4, 5, fun _ _ => false⟩

def vmask0 : Raster := ⟨4, 5, fun _ _ => false⟩

def bC6 : BoundaryDict :=
  ⟨0, 100, 0, 100, 100, 100, none, none, some 61, none, none, none⟩

def bW6 : BoundaryDict :=
  ⟨5, 200, 10, 300, 195, 290, some 8, some 6, some 60, some 60, none, some 45⟩

theorem floor_intCast_div_intCast (a b : ℤ) (hb : 0 < b) :
    ⌊(a : ℚ) / (b : ℚ)⌋ = a / b := by
  obtain ⟨d, rfl⟩ : ∃ d : ℕ, b = (d : ℤ) := ⟨b.toNat, (Int.toNat_of_nonneg hb.le).symm⟩
  rw [show ((d : ℤ) : ℚ) = (d : ℚ) by push_cast; ring]
  exact Rat.floor_intCast_div_natCast a d

theorem pyInt_div_half (a b : ℤ) (hb : 0 < b) (ha : 0 ≤ 2 * a + b) :
    pyInt ((a : ℚ) / (b : ℚ) + 1/2) = pyIntHalf a b := by
  have hb2 : (0 : ℚ) < (b : ℚ) := by exact_mod_cast hb
  have hq : (a : ℚ) / (b : ℚ) + 1/2 = ((2 * a + b : ℤ) : ℚ) / ((2 * b : ℤ) : ℚ) := by
    push_cast
    field_simp
    ring
  have hnn : 0 ≤ (a : ℚ) / (b : ℚ) + 1/2 := by
    rw [hq]
    apply div_nonneg
    · exact_mod_cast ha
    · positivity
  rw [pyInt, if_pos hnn, hq, floor_intCast_div_intCast _ _ (by omega)]
  rfl

theorem close_enough_div (a b n : ℤ) (hb : 0 < b) :
    close_enough ((a : ℚ) / (b : ℚ)) ((n : ℤ) : ℚ) (1/100) = closeNum a b n := by
  have hb2 : (0 : ℚ) < (b : ℚ) := by exact_mod_cast hb
  rw [close_enough, closeNum]
  apply decide_eq_decide.mpr
  have key : ((100 * a - 100 * n * b : ℤ) : ℚ) =
      ((a : ℚ) / (b : ℚ) - (n : ℚ)) * (100 * (b : ℚ)) := by
    field_simp
    ring
  have habs : |((100 * a - 100 * n * b : ℤ) : ℚ)| =
      |(a : ℚ) / (b : ℚ) - (n : ℚ)| * (100 * (b : ℚ)) := by
    rw [key, abs_mul, abs_of_pos (mul_pos (show (0:ℚ) < 100 by norm_num) hb2)]
  constructor
  · intro h
    have h2 : |((100 * a - 100 * n * b : ℤ) : ℚ)| ≤ ((b : ℤ) : ℚ) := by
      rw [habs]
      calc |(a : ℚ) / (b : ℚ) - (n : ℚ)| * (100 * (b : ℚ))
            ≤ (1/100) * (100 * (b : ℚ)) :=
              mul_le_mul_of_nonneg_right h
                (le_of_lt (mul_pos (show (0:ℚ) < 100 by norm_num) hb2))
        _ = ((b : ℤ) : ℚ) := by ring
    exact_mod_cast h2
  · intro h
    have h2 : |((100 * a - 100 * n * b : ℤ) : ℚ)| ≤ ((b : ℤ) : ℚ) := by exact_mod_cast h
    rw [habs] at h2
    nlinarith [abs_nonneg ((a : ℚ) / (b : ℚ) - (n : ℚ)), h2, hb2]

theorem searchHw_eq_fast (span_width image_width min_width max_width : ℤ)
    (hspan : 0 < span_width) (hiw : 0 < image_width) (hmn : 0 < min_width) :
    ∀ l, searchHw span_width image_width min_width max_width l =
      searchHwFast span_width image_width min_width max_width l := by
  intro l
  induction l with
  | nil => rfl
  | cons hw rest ih =>
    rw [searchHw, searchHwFast]
    by_cases hbound : hw < min_width ∨ max_width < hw
    · rw [if_pos hbound, if_pos hbound, ih]
    · rw [if_neg hbound, if_neg hbound]
      have hhw : 0 < hw := by omega
      have e1 : close_enough ((span_width : ℚ) / (hw : ℚ))
          ((pyInt ((span_width : ℚ) / (hw : ℚ) + 1/2) : ℤ) : ℚ) (1/100) =
          closeNum span_width hw (pyIntHalf span_width hw) := by
        rw [pyInt_div_half _ _ hhw (by omega), close_enough_div _ _ _ hhw]
      have e2 : close_enough ((image_width : ℚ) / (hw : ℚ))
          ((pyInt ((image_width : ℚ) / (hw : ℚ) + 1/2) : ℤ) : ℚ) (1/100) =
          closeNum image_width hw (pyIntHalf image_width hw) := by
        rw [pyInt_div_half _ _ hhw (by omega), close_enough_div _ _ _ hhw]
      have ecast : (2 : ℚ) * ((image_width : ℚ) / (hw : ℚ)) =
          ((2 * image_width : ℤ) : ℚ) / (hw : ℚ) := by
        push_cast
        ring
      have e3 : close_enough (2 * ((image_width : ℚ) / (hw : ℚ)))
          ((pyInt (((2 * image_width : ℤ) : ℚ) / (hw : ℚ) + 1/2) : ℤ) : ℚ) (1/100) =
          closeNum (2 * image_width) hw (pyIntHalf (2 * image_width) hw) := by
        rw [ecast, pyInt_div_half _ _ hhw (by omega), close_enough_div _ _ _ hhw]
      simp only [e1, e2, e3, ih]

theorem constraint_matched_eq_fast (cols lx rx image_width min_width max_width : ℤ)
    (hiw : 0 < image_width) (hmn : 0 < min_width) :
    constraint_matched_for_pair cols lx rx image_width min_width max_width =
      constraint_matched_for_pairFast cols lx rx image_width min_width max_width := by
  rw [constraint_matched_for_pair, constraint_matched_for_pairFast]
  by_cases hs : rx - lx ≤ 0
  · simp only [if_pos hs]
  · simp only [if_neg hs]
    exact searchHw_eq_fast _ _ _ _ (by omega) hiw hmn _

theorem rxStep_eq_fast (numcols image_width : ℤ) (li ri : ℕ) (lx : ℤ) (st : ScanState)
    (hiw : 0 < image_width) :
    ∀ l, rxStep numcols image_width li ri lx st l = rxStepFast numcols image_width li ri lx st l := by
  intro l
  induction l generalizing st with
  | nil => rfl
  | cons rx rest ih =>
    cases hr : (constraint_matched_for_pairFast numcols lx rx image_width).1 with
    | true =>
      simp [rxStep, rxStepFast,
        constraint_matched_eq_fast numcols lx rx image_width 40 80 hiw (by norm_num), hr]
    | false =>
      simp [rxStep, rxStepFast,
        constraint_matched_eq_fast numcols lx rx image_width 40 80 hiw (by norm_num), hr, ih]

theorem lxStep_eq_fast (numcols image_width : ℤ) (li ri : ℕ) (rxs : List ℤ) (st : ScanState)
    (hiw : 0 < image_width) :
    ∀ l, lxStep numcols image_width li ri rxs st l = lxStepFast numcols image_width li ri rxs st l := by
  intro l
  induction l generalizing st with
  | nil => rfl
  | cons lx rest ih =>
    rw [lxStep, lxStepFast, rxStep_eq_fast numcols image_width li ri lx st hiw]
    by_cases h : st.col_matched
    · simp only [h, if_true]
    · simp only [h, Bool.false_eq_true, if_false, ih]

theorem pairFold_eq_fast (numcols image_width error_margin : ℤ)
    (left_lines right_lines : List LineSeg) (st : ScanState) (hiw : 0 < image_width) :
    ∀ l, pairFold numcols image_width error_margin left_lines right_lines st l =
      pairFoldFast numcols image_width error_margin left_lines right_lines st l := by
  intro l
  induction l generalizing st with
  | nil => rfl
  | cons p rest ih =>
    obtain ⟨li, ri⟩ := p
    rw [pairFold, pairFoldFast]
    cases hl : left_lines.get? li with
    | none =>
      simp only [hl]
      exact ih st
    | some ll =>
      cases hrr : right_lines.get? ri with
      | none =>
        simp only [hl, hrr]
        exact ih st
      | some rl =>
        simp only [hl, hrr]
        rw [lxStep_eq_fast numcols image_width li ri _ st hiw]
        exact ih _

theorem mkCandidate_eq_fast (numcols : ℤ) (st : ScanState) :
    mkCandidate numcols st = mkCandidateFast numcols st := by
  rw [mkCandidate, mkCandidateFast]
  have hsum : ∀ l : List ℤ, ((l.map (fun z : ℤ => (z : ℚ))).sum) = ((l.sum : ℤ) : ℚ) :=
    fun l => (Int.cast_list_sum l).symm
  have havg : ∀ l : List ℤ,
      (if l = [] then (0:ℚ) else ((l.map (fun z : ℤ => (z : ℚ))).sum) / (l.length : ℚ)) =
      (if l = [] then (0:ℚ) else Rat.divInt l.sum l.length) := by
    intro l
    by_cases h : l = []
    · simp [h]
    · rw [if_neg h, if_neg h, Rat.divInt_eq_div, hsum l]
      norm_cast
  simp only [havg]

theorem solve_eq_fast (matched_pairs : List (ℕ × ℕ)) (left_lines right_lines : List LineSeg)
    (image_width error_margin : ℤ) (hiw : 0 < image_width) :
    solve_constraints_from_matched_pairs matched_pairs left_lines right_lines image_width
      error_margin =
    solveFast matched_pairs left_lines right_lines image_width error_margin := by
  rw [solve_constraints_from_matched_pairs, solveFast]
  have hfm : ∀ numcols : ℤ,
      (let st := pairFold numcols image_width error_margin left_lines right_lines
        initScanState matched_pairs
      if st.recorded = [] then none else some (mkCandidate numcols st)) =
      (let st := pairFoldFast numcols image_width error_margin left_lines right_lines
        initScanState matched_pairs
      if st.recorded = [] then none else some (mkCandidateFast numcols st)) := by
    intro numcols
    simp only [pairFold_eq_fast numcols image_width error_margin left_lines right_lines
      initScanState hiw, mkCandidate_eq_fast]
  simp only [hfm]

/-! ### Claim C3: behaviour of the match predicate on exactly constructed inputs -/

theorem mem_intRange (a b x : ℤ) : x ∈ intRange a b ↔ a ≤ x ∧ x ≤ b := by
  rw [intRange]
  simp only [List.mem_map, List.mem_range]
  constructor
  · rintro ⟨i, hi, rfl⟩
    omega
  · intro h
    exact ⟨(x - a).toNat, by omega, by omega⟩

/-- If some width in the scanned list is inside the bounds, satisfies the span
test and satisfies the full-tile image test, then the scan reports a match. -/
theorem searchHw_matched_of_mem (span_width image_width min_width max_width : ℤ)
    (l : List ℤ) (hw : ℤ) (hmem : hw ∈ l)
    (hbound : ¬ (hw < min_width ∨ max_width < hw))
    (hspan : close_enough ((span_width : ℚ) / (hw : ℚ))
      ((pyInt ((span_width : ℚ) / (hw : ℚ) + 1/2) : ℤ) : ℚ) (1/100) = true)
    (himg : close_enough ((image_width : ℚ) / (hw : ℚ))
      ((pyInt ((image_width : ℚ) / (hw : ℚ) + 1/2) : ℤ) : ℚ) (1/100) = true) :
    (searchHw span_width image_width min_width max_width l).1 = true := by
  induction l with
  | nil => cases hmem
  | cons a rest ih =>
    rw [searchHw]
    by_cases hb : a < min_width ∨ max_width < a
    · rw [if_pos hb]
      rcases List.mem_cons.mp hmem with rfl | hrest
      · exact absurd hb hbound
      · exact ih hrest
    · rw [if_neg hb]
      by_cases hs : close_enough ((span_width : ℚ) / (a : ℚ))
          ((pyInt ((span_width : ℚ) / (a : ℚ) + 1/2) : ℤ) : ℚ) (1/100) = true
      · simp only [hs, not_true, if_false, reduceIte]
        by_cases hi1 : close_enough ((image_width : ℚ) / (a : ℚ))
            ((pyInt ((image_width : ℚ) / (a : ℚ) + 1/2) : ℤ) : ℚ) (1/100) = true
        · simp only [hi1, reduceIte]
        · simp only [hi1, Bool.false_eq_true, reduceIte]
          by_cases hi2 : close_enough (2 * ((image_width : ℚ) / (a : ℚ)))
              ((pyInt (((2 * image_width : ℤ) : ℚ) / (a : ℚ) + 1/2) : ℤ) : ℚ) (1/100) = true
          · simp only [hi2, reduceIte]
          · simp only [hi2, Bool.false_eq_true, reduceIte]
            rcases List.mem_cons.mp hmem with rfl | hrest
            · exact absurd himg hi1
            · exact ih hrest
      · simp only [hs, Bool.false_eq_true, not_false_eq_true, reduceIte]
        rcases List.mem_cons.mp hmem with rfl | hrest
        · exact absurd hspan hs
        · exact ih hrest

theorem closeQ_self (q : ℚ) : close_enough q q (1/100) = true := by
  simp [close_enough]

theorem pyInt_int_add_half (m : ℤ) (hm : 0 ≤ m) : pyInt ((m : ℚ) + 1/2) = m := by
  have h0 : (0 : ℚ) ≤ (m : ℚ) + 1/2 := by
    have : (0 : ℚ) ≤ (m : ℚ) := by exact_mod_cast hm
    linarith
  rw [pyInt, if_pos h0, add_comm, Int.floor_add_int, show ⌊(1/2 : ℚ)⌋ = 0 by norm_num,
    zero_add]

/-- Claim C3 (amended): for every column count `c` in `[5,100)` and integer
width `hw` in the global bounds `[40,80]`, if `imageWidth = c*hw` and
`rx - lx` is a positive integer multiple of `hw`, the predicate returns a
match.  (The reported width is the first width in the scanned window
satisfying the constraints, which can differ from `hw` — see the
counterexample.) -/
theorem C3_match_predicate (c hw lx rx m : ℤ) (hc5 : 5 ≤ c) (hc : c < 100)
    (h40 : 40 ≤ hw) (h80 : hw ≤ 80) (hm : 1 ≤ m) (hspan : rx - lx = m * hw) :
    (constraint_matched_for_pair c lx rx (c * hw)).1 = true := by
  have hhw : 0 < hw := by omega
  have hhwq : ((hw : ℤ) : ℚ) ≠ 0 := by
    simp only [ne_eq, Int.cast_eq_zero]
    omega
  have hspanpos : ¬ (rx - lx ≤ 0) := by
    rw [hspan]
    nlinarith
  rw [constraint_matched_for_pair]
  simp only [if_neg hspanpos]
  rw [Int.mul_fdiv_cancel_left hw (by omega : c ≠ 0)]
  apply searchHw_matched_of_mem _ _ _ _ _ hw ((mem_intRange _ _ hw).mpr (by omega))
    (by omega)
  · have hdiv : ((rx - lx : ℤ) : ℚ) / (hw : ℚ) = (m : ℚ) := by
      rw [hspan]
      push_cast
      field_simp
    rw [hdiv, pyInt_int_add_half m (by omega)]
    exact closeQ_self _
  · have hdiv : ((c * hw : ℤ) : ℚ) / (hw : ℚ) = (c : ℚ) := by
      push_cast
      field_simp
    rw [hdiv, pyInt_int_add_half c (by omega)]
    exact closeQ_self _

/-- Claim C3 counterexample: with `c = 40`, `hw = 43`, `lx = 0`, `rx = 1720`,
`imageWidth = 1720 = 40*43` and `rx - lx = 40*43` a positive multiple of `43`,
the predicate matches but reports width `40`, not `43`: width 40 also satisfies
all constraints (`1720 = 43*40`) and is scanned first. -/
theorem C3_counterexample :
    (40 : ℤ) * 43 = 1720 ∧ (1720 : ℤ) - 0 = 40 * 43 ∧
    (constraint_matched_for_pair 40 0 1720 1720).2.2 = 40 ∧
    (constraint_matched_for_pair 40 0 1720 1720).1 = true ∧
    (40 : ℤ) ≠ 43 := by
  refine ⟨by norm_num, by norm_num, ?_, ?_, by norm_num⟩
  · rw [constraint_matched_eq_fast 40 0 1720 1720 40 80 (by norm_num) (by norm_num)]
    decide
  · rw [constraint_matched_eq_fast 40 0 1720 1720 40 80 (by norm_num) (by norm_num)]
    decide

/-- Witness for C3: a concrete instance (`c = 5`, `hw = 60`, `lx = 0`,
`rx = 60`, `imageWidth = 300`) discharging every hypothesis. -/
theorem C3_witness : (constraint_matched_for_pair 5 0 60 300).1 = true := by
  have h := C3_match_predicate 5 60 0 60 1 (by norm_num) (by norm_num) (by norm_num)
    (by norm_num) (by norm_num) (by norm_num)
  simpa using h

theorem rxStep_inv (numcols image_width : ℤ) (li ri : ℕ) (lx : ℤ) :
    ∀ (l : List ℤ) (st : ScanState), st.col_matched = false → st.recorded = [] →
      ScanInv (rxStep numcols image_width li ri lx st l)
  | [], _, h1, h2 => Or.inl ⟨h1, h2⟩
  | rx :: rest, st, h1, h2 => by
    rw [rxStep]
    split
    · right
      refine ⟨rfl, ?_⟩
      simp [h2]
    · exact rxStep_inv numcols image_width li ri lx rest st h1 h2

theorem lxStep_inv (numcols image_width : ℤ) (li ri : ℕ) (rxs : List ℤ) :
    ∀ (l : List ℤ) (st : ScanState), ScanInv st →
      ScanInv (lxStep numcols image_width li ri rxs st l)
  | [], _, h => h
  | lx :: rest, st, h => by
    rw [lxStep]
    split
    · exact h
    · rename_i hcm
      rcases h with ⟨h1, h2⟩ | ⟨h1, h2⟩
      · exact lxStep_inv numcols image_width li ri rxs rest _
          (rxStep_inv numcols image_width li ri lx rxs st h1 h2)
      · exact absurd h1 hcm

theorem pairFold_inv (numcols image_width error_margin : ℤ) (L R : List LineSeg) :
    ∀ (l : List (ℕ × ℕ)) (st : ScanState), ScanInv st →
      ScanInv (pairFold numcols image_width error_margin L R st l)
  | [], _, h => h
  | (li, ri) :: rest, st, h => by
    rw [pairFold]
    cases hl : L.get? li with
    | none =>
      simp only [hl]
      exact pairFold_inv numcols image_width error_margin L R rest st h
    | some ll =>
      cases hrr : R.get? ri with
      | none =>
        simp only [hl, hrr]
        exact pairFold_inv numcols image_width error_margin L R rest st h
      | some rl =>
        simp only [hl, hrr]
        exact pairFold_inv numcols image_width error_margin L R rest _
          (lxStep_inv numcols image_width li ri _ _ st h)

/-- Claim C1 (amended): each `ColumnCandidate` built by
`_solve_constraints_from_matched_pairs` satisfies
`confidence = |supporting_pairs|`, but because the `col_matched` flag makes the
scan stop testing further pairs for the same column count after the first
match, every candidate records exactly one supporting pair (so every
confidence equals 1). -/
theorem C1_confidence_single (matched_pairs : List (ℕ × ℕ))
    (left_lines right_lines : List LineSeg) (image_width error_margin : ℤ)
    (cand : ColumnCandidate)
    (hmem : cand ∈ (solve_constraints_from_matched_pairs matched_pairs left_lines
      right_lines image_width error_margin).column_candidates) :
    cand.confidence = cand.supporting_pairs.length ∧ cand.supporting_pairs.length = 1 := by
  rw [solve_constraints_from_matched_pairs] at hmem
  simp only at hmem
  have hmem2 : cand ∈ (intRange 5 99).filterMap (fun numcols =>
      let st := pairFold numcols image_width error_margin left_lines right_lines
        initScanState matched_pairs
      if st.recorded = [] then none else some (mkCandidate numcols st)) :=
    ((List.perm_insertionSort candRel _).mem_iff).mp hmem
  obtain ⟨nc, hnc, heq⟩ := List.mem_filterMap.mp hmem2
  simp only at heq
  set st := pairFold nc image_width error_margin left_lines right_lines
    initScanState matched_pairs with hst
  by_cases hrec : st.recorded = []
  · rw [if_pos hrec] at heq
    cases heq
  · rw [if_neg hrec] at heq
    have hcand : cand = mkCandidate nc st := (Option.some.inj heq).symm
    have hinv : ScanInv st := pairFold_inv nc image_width error_margin left_lines
      right_lines matched_pairs initScanState (Or.inl ⟨rfl, rfl⟩)
    have hlen : st.recorded.length = 1 := by
      rcases hinv with ⟨_, h2⟩ | ⟨_, h2⟩
      · exact absurd h2 hrec
      · exact h2
    subst hcand
    simp [mkCandidate, hlen]

/-- The sort relation of line 1163 is reflexive. -/
theorem candRel_refl (a : ColumnCandidate) : candRel a a := by
  unfold candRel
  omega

/-- Claim C2 (amended): the solver's top candidate has maximal confidence, and
among candidates of equal confidence the top candidate has the **smallest**
column count (the sort key `(confidence, -cols)` with `reverse=True` prefers
smaller column counts on ties). -/
theorem C2_top_candidate (matched_pairs : List (ℕ × ℕ))
    (left_lines right_lines : List LineSeg) (image_width error_margin : ℤ)
    (t : ColumnCandidate)
    (htop : (solve_constraints_from_matched_pairs matched_pairs left_lines right_lines
      image_width error_margin).top_candidate = some t) :
    ∀ cand ∈ (solve_constraints_from_matched_pairs matched_pairs left_lines right_lines
      image_width error_margin).column_candidates,
      cand.confidence ≤ t.confidence ∧
      (cand.confidence = t.confidence → t.cols ≤ cand.cols) := by
  intro cand hc
  rw [solve_constraints_from_matched_pairs] at htop hc
  simp only at htop hc
  set pre := (intRange 5 99).filterMap (fun numcols =>
    let st := pairFold numcols image_width error_margin left_lines right_lines
      initScanState matched_pairs
    if st.recorded = [] then none else some (mkCandidate numcols st)) with hpre
  have hsorted : List.Sorted candRel (List.insertionSort candRel pre) :=
    List.sorted_insertionSort candRel pre
  have hle : candRel t cand := by
    cases hms : List.insertionSort candRel pre with
    | nil =>
      rw [hms] at htop
      cases htop
    | cons hd tl =>
      rw [hms] at htop hc
      have hhd : hd = t := by
        simpa using htop
      subst hhd
      rcases List.mem_cons.mp hc with rfl | htl
      · exact candRel_refl _
      · rw [hms] at hsorted
        exact (List.pairwise_cons.mp hsorted).1 cand htl
  unfold candRel at hle
  omega

/-- Claim C1 counterexample: for column count 40 the pair `(1,1)` satisfies the
match predicate (at its exact coordinates, with hex width 60), yet the
candidate built for 40 records only the first pair `(0,0)` — the claim "every
matched pair that satisfies the match predicate is recorded as evidence" fails
on the code. -/
theorem C1_counterexample :
    (constraint_matched_for_pair 40 700 1000 2400).1 = true ∧
    ((solve_constraints_from_matched_pairs pairsA leftA rightA 2400 0).column_candidates.filter
      (fun cand => cand.cols == 40)).map (fun cand => cand.supporting_pairs) = [[(0, 0)]] ∧
    ¬ ((1, 1) ∈ ([(0, 0)] : List (ℕ × ℕ))) := by
  refine ⟨?_, ?_, by decide⟩
  · rw [constraint_matched_eq_fast 40 700 1000 2400 40 80 (by norm_num) (by norm_num)]
    decide
  · rw [solve_eq_fast pairsA leftA rightA 2400 0 (by norm_num)]
    decide

/-- Witness for C1 (amended): the candidate produced on the concrete input has
confidence equal to its number of supporting pairs, which is 1. -/
theorem C1_witness :
    candW.confidence = candW.supporting_pairs.length ∧
    candW.supporting_pairs.length = 1 :=
  C1_confidence_single pairsW leftW rightW 250 0 candW
    (by rw [solve_eq_fast pairsW leftW rightW 250 0 (by norm_num)]; decide)

/-- Claim C2 counterexample: on the concrete input the top candidate has
`cols = 31` while another candidate of equal confidence has `cols = 51` — the
tie is broken toward the **smaller** column count, contradicting the claim
that the larger count is preferred. -/
theorem C2_counterexample :
    (solve_constraints_from_matched_pairs pairsB leftB rightB 2400 0).top_candidate =
      some candB31 ∧
    candB51 ∈ (solve_constraints_from_matched_pairs pairsB leftB rightB 2400 0).column_candidates ∧
    candB51.confidence = candB31.confidence ∧ candB31.cols < candB51.cols := by
  refine ⟨?_, ?_, by decide, by decide⟩
  · rw [solve_eq_fast pairsB leftB rightB 2400 0 (by norm_num)]
    decide
  · rw [solve_eq_fast pairsB leftB rightB 2400 0 (by norm_num)]
    decide

/-- Witness for C2 (amended): applied to the concrete input, with top candidate
`cols = 31` and the candidate `cols = 51` of equal confidence. -/
theorem C2_witness :
    candB51.confidence ≤ candB31.confidence ∧
    (candB51.confidence = candB31.confidence → candB31.cols ≤ candB51.cols) :=
  C2_top_candidate pairsB leftB rightB 2400 0 candB31
    (by rw [solve_eq_fast pairsB leftB rightB 2400 0 (by norm_num)]; decide)
    candB51
    (by rw [solve_eq_fast pairsB leftB rightB 2400 0 (by norm_num)]; decide)

theorem greedy_commit_mem (pm : List PMatch) :
    ∀ (uL uR : List ℕ), ∀ pr ∈ greedy_commit pm uL uR,
      ∃ m ∈ pm, m.left_idx = pr.1 ∧ m.right_idx = pr.2 := by
  induction pm with
  | nil =>
    intro uL uR pr hpr
    cases hpr
  | cons m rest ih =>
    intro uL uR pr hpr
    rw [greedy_commit] at hpr
    split at hpr
    · rcases List.mem_cons.mp hpr with rfl | htl
      · exact ⟨m, List.mem_cons_self m rest, rfl, rfl⟩
      · obtain ⟨m', hm', h1, h2⟩ := ih _ _ pr htl
        exact ⟨m', List.mem_cons_of_mem m hm', h1, h2⟩
    · obtain ⟨m', hm', h1, h2⟩ := ih _ _ pr hpr
      exact ⟨m', List.mem_cons_of_mem m hm', h1, h2⟩

theorem greedy_commit_nodup_left (pm : List PMatch) :
    ∀ (uL uR : List ℕ),
      ((greedy_commit pm uL uR).map Prod.fst).Nodup ∧
      ∀ i ∈ (greedy_commit pm uL uR).map Prod.fst, i ∉ uL := by
  induction pm with
  | nil => exact fun uL uR => ⟨List.nodup_nil, fun i hi => absurd hi (List.not_mem_nil i)⟩
  | cons m rest ih =>
    intro uL uR
    rw [greedy_commit]
    split
    · rename_i hcond
      obtain ⟨hnd, hout⟩ := ih (m.left_idx :: uL) (m.right_idx :: uR)
      constructor
      · rw [List.map_cons, List.nodup_cons]
        refine ⟨fun hmem => ?_, hnd⟩
        exact (hout _ hmem) (List.mem_cons_self _ _)
      · intro i hi
        rw [List.map_cons, List.mem_cons] at hi
        rcases hi with rfl | hi
        · exact hcond.1
        · intro hiu
          exact (hout i hi) (List.mem_cons_of_mem _ hiu)
    · obtain ⟨hnd, hout⟩ := ih uL uR
      exact ⟨hnd, hout⟩

theorem greedy_commit_nodup_right (pm : List PMatch) :
    ∀ (uL uR : List ℕ),
      ((greedy_commit pm uL uR).map Prod.snd).Nodup ∧
      ∀ i ∈ (greedy_commit pm uL uR).map Prod.snd, i ∉ uR := by
  induction pm with
  | nil => exact fun uL uR => ⟨List.nodup_nil, fun i hi => absurd hi (List.not_mem_nil i)⟩
  | cons m rest ih =>
    intro uL uR
    rw [greedy_commit]
    split
    · rename_i hcond
      obtain ⟨hnd, hout⟩ := ih (m.left_idx :: uL) (m.right_idx :: uR)
      constructor
      · rw [List.map_cons, List.nodup_cons]
        refine ⟨fun hmem => ?_, hnd⟩
        exact (hout _ hmem) (List.mem_cons_self _ _)
      · intro i hi
        rw [List.map_cons, List.mem_cons] at hi
        rcases hi with rfl | hi
        · exact hcond.2
        · intro hiu
          exact (hout i hi) (List.mem_cons_of_mem _ hiu)
    · obtain ⟨hnd, hout⟩ := ih uL uR
      exact ⟨hnd, hout⟩

theorem mem_potential_matches (left_lines right_lines : List LineSeg) (m : PMatch)
    (hm : m ∈ potential_matches left_lines right_lines) :
    m.left_idx < left_lines.length ∧ m.right_idx < right_lines.length ∧
    20 ≤ segOverlapLen (left_lines.getD m.left_idx default)
      (right_lines.getD m.right_idx default) := by
  rw [potential_matches, List.mem_flatMap] at hm
  obtain ⟨li, hli, hmem⟩ := hm
  rw [List.mem_filterMap] at hmem
  obtain ⟨ri, hri, heq⟩ := hmem
  simp only at heq
  by_cases h1 : max li.2.start_y ri.2.start_y ≤ min li.2.end_y ri.2.end_y
  · rw [if_pos h1] at heq
    by_cases h2 : (20 : ℤ) ≤ min li.2.end_y ri.2.end_y - max li.2.start_y ri.2.start_y + 1
    · rw [if_pos h2] at heq
      obtain ⟨rfl⟩ := Option.some.inj heq
      have hli2 := List.mem_enum_iff_getElem?.mp hli
      have hri2 := List.mem_enum_iff_getElem?.mp hri
      have hlen1 : li.1 < left_lines.length := (List.getElem?_eq_some.mp hli2).1
      have hlen2 : ri.1 < right_lines.length := (List.getElem?_eq_some.mp hri2).1
      refine ⟨hlen1, hlen2, ?_⟩
      have hg1 : left_lines.getD li.1 default = li.2 := by
        rw [List.getD_eq_getElem?_getD, hli2]
        rfl
      have hg2 : right_lines.getD ri.1 default = ri.2 := by
        rw [List.getD_eq_getElem?_getD, hri2]
        rfl
      rw [hg1, hg2, segOverlapLen]
      omega
    · rw [if_neg h2] at heq
      cases heq
  · rw [if_neg h1] at heq
    cases heq

/-- Claim C7: every pair returned by the matcher has vertical overlap at least
`MIN_OVERLAP` (20 px) between the two indexed segments, and the matching is
1:1 — no left index and no right index occurs twice.  The function is total,
so unmatched segments cause no error. -/
theorem C7_greedy_matching (left_lines right_lines : List LineSeg) :
    (∀ pr ∈ find_matching_left_right_segments left_lines right_lines,
      pr.1 < left_lines.length ∧ pr.2 < right_lines.length ∧
      20 ≤ segOverlapLen (left_lines.getD pr.1 default)
        (right_lines.getD pr.2 default)) ∧
    ((find_matching_left_right_segments left_lines right_lines).map Prod.fst).Nodup ∧
    ((find_matching_left_right_segments left_lines right_lines).map Prod.snd).Nodup := by
  refine ⟨?_, (greedy_commit_nodup_left _ [] []).1, (greedy_commit_nodup_right _ [] []).1⟩
  intro pr hpr
  obtain ⟨m, hm, h1, h2⟩ := greedy_commit_mem _ [] [] pr hpr
  have hm2 : m ∈ potential_matches left_lines right_lines :=
    ((List.perm_insertionSort pmRel _).mem_iff).mp hm
  obtain ⟨ha, hb, hc⟩ := mem_potential_matches left_lines right_lines m hm2
  rw [← h1, ← h2]
  exact ⟨ha, hb, hc⟩

/-- Witness for C7: on the concrete input the matcher returns the pair `(0,0)`
and the theorem's conclusions hold for it. -/
theorem C7_witness :
    (0, 0) ∈ find_matching_left_right_segments [lw0] [rw0] ∧
    (0 < [lw0].length ∧ 0 < [rw0].length ∧
      20 ≤ segOverlapLen ([lw0].getD 0 default) ([rw0].getD 0 default)) :=
  ⟨by decide, C7_greedy_matching [lw0] [rw0] |>.1 (0, 0) (by decide)⟩

theorem extractGo_fg (A : ℕ → Option ℕ) (xt gt : ℕ) :
    ∀ (k y : ℕ) (cur : Option LineSeg) (gap : ℕ) (acc : List LineSeg),
      (∀ l ∈ acc, lineHasFg A gt l) →
      curInv A gt y cur gap →
      ∀ l ∈ extractGo xt gt ((List.range' y k).map A) y cur gap acc,
        lineHasFg A gt l := by
  intro k
  induction k with
  | zero =>
    intro y cur gap acc hacc hcur l hl
    rw [show List.range' y 0 = ([] : List ℕ) from rfl, List.map_nil] at hl
    cases cur with
    | none =>
      rw [extractGo] at hl
      exact hacc l hl
    | some l0 =>
      obtain ⟨hgap, hend, yy, hy1, hy2, hy3, hy4⟩ := hcur
      rw [extractGo] at hl
      split at hl
      · rcases List.mem_append.mp hl with h | h
        · exact hacc l h
        · rw [List.mem_singleton] at h
          subst h
          exact ⟨yy, hy1, hy2, hy3, by omega⟩
      · exact hacc l hl
  | succ k ih =>
    intro y cur gap acc hacc hcur l hl
    rw [List.range'_succ, List.map_cons] at hl
    cases hA : A y with
    | some x =>
      rw [hA] at hl
      cases cur with
      | none =>
        rw [extractGo] at hl
        refine ih (y + 1) _ 0 acc hacc ?_ l hl
        refine ⟨by omega, by simp <;> omega, y, by rw [hA]; rfl, by simp, by simp,
          by simp⟩
      | some l0 =>
        obtain ⟨hgap, hend, yy, hy1, hy2, hy3, hy4⟩ := hcur
        rw [extractGo] at hl
        split at hl
        · refine ih (y + 1) _ 0 acc hacc ?_ l hl
          refine ⟨by omega, by simp <;> omega, y, by rw [hA]; rfl, by simp <;> omega,
            by simp, by simp⟩
        · have hacc2 : ∀ l' ∈ (if (MIN_LINE_LENGTH : ℤ) ≤ l0.length
              then acc ++ [l0] else acc), lineHasFg A gt l' := by
            intro l' hl'
            split at hl'
            · rcases List.mem_append.mp hl' with h | h
              · exact hacc l' h
              · rw [List.mem_singleton] at h
                subst h
                exact ⟨yy, hy1, hy2, hy3, by omega⟩
            · exact hacc l' hl'
          refine ih (y + 1) _ 0 _ hacc2 ?_ l hl
          refine ⟨by omega, by simp <;> omega, y, by rw [hA]; rfl, by simp, by simp,
            by simp⟩
    | none =>
      rw [hA] at hl
      cases cur with
      | none =>
        rw [extractGo] at hl
        exact ih (y + 1) none gap acc hacc trivial l hl
      | some l0 =>
        obtain ⟨hgap, hend, yy, hy1, hy2, hy3, hy4⟩ := hcur
        rw [extractGo] at hl
        split at hl
        · refine ih (y + 1) _ (gap + 1) acc hacc ?_ l hl
          refine ⟨by omega, by simp <;> omega, yy, hy1, by simp <;> omega, by simp <;> omega,
            by simp <;> (push_cast; omega)⟩
        · have hacc2 : ∀ l' ∈ (if (MIN_LINE_LENGTH : ℤ) ≤ l0.length
              then acc ++ [l0] else acc), lineHasFg A gt l' := by
            intro l' hl'
            split at hl'
            · rcases List.mem_append.mp hl' with h | h
              · exact hacc l' h
              · rw [List.mem_singleton] at h
                subst h
                exact ⟨yy, hy1, hy2, hy3, by omega⟩
            · exact hacc l' hl'
          exact ih (y + 1) none 0 _ hacc2 trivial l hl

/-- Claim C10: in per-side segment extraction, every returned segment contains
an anchored (foreground) row within `gap_tolerance` rows of its recorded
`end_y` — tolerated blank rows are absorbed into the extent, so `end_y` may
exceed the last foreground row by at most `gap_tolerance` rows, and the
reported `length = end_y - start_y + 1` may count up to `gap_tolerance`
foreground-free rows. -/
theorem C10_gap_absorption (proj : Raster) (side : Side)
    (x_tolerance gap_tolerance : ℕ) (l : LineSeg)
    (hmem : l ∈ extract_lines_from_side proj side x_tolerance gap_tolerance) :
    lineHasFg (rowAnchor proj side) gap_tolerance l := by
  rw [extract_lines_from_side, List.range_eq_range'] at hmem
  exact extractGo_fg (rowAnchor proj side) x_tolerance gap_tolerance proj.H 0 none 0 []
    (fun l' hl' => absurd hl' (List.not_mem_nil l')) trivial l hmem

/-- Witness for C10: the segment `(x=0, rows 0–16)` is returned on the witness
raster, and the theorem applies to it. -/
theorem C10_witness :
    segC10 ∈ extract_lines_from_side projC10 Side.left 3 5 ∧
    segC10.start_y ≤ segC10.end_y :=
  ⟨by decide, by
    obtain ⟨yy, h1, h2, h3, h4⟩ :=
      C10_gap_absorption projC10 Side.left 3 5 segC10 (by decide)
    omega⟩

/-! ### Claim C8: interior gaps of `gap_tolerance` merge, larger gaps split -/

theorem extractGo_congr (xt gt : ℕ) (rest : List (Option ℕ)) (acc : List LineSeg)
    (y1 y2 g1 g2 : ℕ) (sx sy e1 e2 n1 n2 : ℤ)
    (hy : y1 = y2) (he : e1 = e2) (hn : n1 = n2) (hg : g1 = g2) :
    extractGo xt gt rest y1 (some ⟨sx, sy, e1, n1⟩) g1 acc =
    extractGo xt gt rest y2 (some ⟨sx, sy, e2, n2⟩) g2 acc := by
  rw [hy, he, hn, hg]

theorem extractGo_congr_none (xt gt : ℕ) (rest : List (Option ℕ)) (acc : List LineSeg)
    (y1 y2 g1 g2 : ℕ) (hy : y1 = y2) (hg : g1 = g2) :
    extractGo xt gt rest y1 none g1 acc = extractGo xt gt rest y2 none g2 acc := by
  rw [hy, hg]

theorem extractGo_blanks_none (xt gt : ℕ) :
    ∀ (k : ℕ) (rest : List (Option ℕ)) (y gap : ℕ) (acc : List LineSeg),
      extractGo xt gt (List.replicate k none ++ rest) y none gap acc =
      extractGo xt gt rest (y + k) none gap acc := by
  intro k
  induction k with
  | zero => intro rest y gap acc; rfl
  | succ k ih =>
    intro rest y gap acc
    rw [List.replicate_succ, List.cons_append, extractGo, ih]
    exact extractGo_congr_none xt gt rest acc _ _ _ _ (by omega) rfl

theorem extractGo_run_extend (xt gt x : ℕ) :
    ∀ (k : ℕ) (rest : List (Option ℕ)) (y gap : ℕ) (acc : List LineSeg) (sy e n : ℤ),
      extractGo xt gt (List.replicate (k + 1) (some x) ++ rest) y
        (some ⟨(x : ℤ), sy, e, n⟩) gap acc =
      extractGo xt gt rest (y + (k + 1))
        (some ⟨(x : ℤ), sy, (y : ℤ) + (k : ℤ), (y : ℤ) + (k : ℤ) - sy + 1⟩) 0 acc := by
  intro k
  induction k with
  | zero =>
    intro rest y gap acc sy e n
    rw [List.replicate_succ, List.replicate_zero, List.cons_append, List.nil_append,
      extractGo, if_pos (by simp)]
    dsimp only
    exact extractGo_congr xt gt rest acc _ _ _ _ _ _ _ _ _ _ (by omega)
      (by push_cast; ring) (by push_cast; ring) rfl
  | succ k ih =>
    intro rest y gap acc sy e n
    rw [List.replicate_succ, List.cons_append, extractGo, if_pos (by simp)]
    dsimp only
    rw [ih rest (y + 1) 0 acc sy (y : ℤ) ((y : ℤ) - sy + 1)]
    exact extractGo_congr xt gt rest acc _ _ _ _ _ _ _ _ _ _ (by omega)
      (by push_cast; ring) (by push_cast; ring) rfl

theorem extractGo_run_start (xt gt x : ℕ) (k : ℕ) (rest : List (Option ℕ))
    (y gap : ℕ) (acc : List LineSeg) :
    extractGo xt gt (List.replicate (k + 1) (some x) ++ rest) y none gap acc =
    extractGo xt gt rest (y + (k + 1))
      (some ⟨(x : ℤ), (y : ℤ), (y : ℤ) + (k : ℤ), (k : ℤ) + 1⟩) 0 acc := by
  cases k with
  | zero =>
    rw [List.replicate_succ, List.replicate_zero, List.cons_append, List.nil_append,
      extractGo]
    exact extractGo_congr xt gt rest acc _ _ _ _ _ _ _ _ _ _ (by omega)
      (by push_cast <;> ring) (by push_cast <;> ring) rfl
  | succ k =>
    rw [List.replicate_succ (some x) (k + 1), List.cons_append, extractGo,
      extractGo_run_extend xt gt x k rest (y + 1) 0 acc (y : ℤ) (y : ℤ) 1]
    exact extractGo_congr xt gt rest acc _ _ _ _ _ _ _ _ _ _ (by omega)
      (by push_cast; ring) (by push_cast; ring) rfl

theorem extractGo_gap_extend (xt gt : ℕ) :
    ∀ (k : ℕ) (rest : List (Option ℕ)) (y gap : ℕ) (acc : List LineSeg) (sx sy e n : ℤ),
      gap + k ≤ gt → e = (y : ℤ) - 1 → n = e - sy + 1 →
      extractGo xt gt (List.replicate k none ++ rest) y (some ⟨sx, sy, e, n⟩) gap acc =
      extractGo xt gt rest (y + k)
        (some ⟨sx, sy, (y : ℤ) + (k : ℤ) - 1, (y : ℤ) + (k : ℤ) - 1 - sy + 1⟩)
        (gap + k) acc := by
  intro k
  induction k with
  | zero =>
    intro rest y gap acc sx sy e n hgap hend hlen
    rw [List.replicate_zero, List.nil_append]
    exact extractGo_congr xt gt rest acc _ _ _ _ _ _ _ _ _ _ (by omega)
      (by push_cast; omega) (by push_cast; omega) (by omega)
  | succ k ih =>
    intro rest y gap acc sx sy e n hgap hend hlen
    rw [List.replicate_succ, List.cons_append, extractGo,
      if_pos (by omega : gap + 1 ≤ gt)]
    dsimp only
    rw [ih rest (y + 1) (gap + 1) acc sx sy (y : ℤ) ((y : ℤ) - sy + 1) (by omega)
      (by push_cast; ring) rfl]
    exact extractGo_congr xt gt rest acc _ _ _ _ _ _ _ _ _ _ (by omega)
      (by push_cast; ring) (by push_cast; ring) (by omega)

theorem extractGo_tail_blanks (xt gt : ℕ) :
    ∀ (k y gap : ℕ) (acc : List LineSeg) (sx sy e n : ℤ),
      (MIN_LINE_LENGTH : ℤ) ≤ n → e = (y : ℤ) - 1 → n = e - sy + 1 →
      ∃ l2 : LineSeg,
        extractGo xt gt (List.replicate k none) y (some ⟨sx, sy, e, n⟩) gap acc =
          acc ++ [l2] := by
  intro k
  induction k with
  | zero =>
    intro y gap acc sx sy e n hmin hend hlen
    refine ⟨⟨sx, sy, e, n⟩, ?_⟩
    rw [List.replicate_zero, extractGo, if_pos hmin]
  | succ k ih =>
    intro y gap acc sx sy e n hmin hend hlen
    rw [List.replicate_succ, extractGo]
    by_cases hg : gap + 1 ≤ gt
    · rw [if_pos hg]
      dsimp only
      exact ih (y + 1) (gap + 1) acc sx sy (y : ℤ) ((y : ℤ) - sy + 1)
        (by omega) (by push_cast; ring) rfl
    · rw [if_neg hg, if_pos hmin]
      refine ⟨⟨sx, sy, e, n⟩, ?_⟩
      have hrepl : List.replicate k (none : Option ℕ) =
          List.replicate k (none : Option ℕ) ++ [] := by simp
      rw [hrepl, extractGo_blanks_none, extractGo]

/-- Claim C8: a vertical foreground run at stable anchor `x` (run of `a ≥ 10`
rows, interior gap, run of `b ≥ 10` rows, framed by arbitrary leading/trailing
blanks) stays a single segment when the interior gap is exactly
`gap_tolerance` rows, and splits into two segments when it is
`gap_tolerance + 1` rows. -/
theorem C8_gap_tolerance (proj1 proj2 : Raster) (side : Side)
    (x_tolerance gap_tolerance p a b q x : ℕ)
    (ha : MIN_LINE_LENGTH ≤ a) (hb : MIN_LINE_LENGTH ≤ b)
    (h1 : (List.range proj1.H).map (rowAnchor proj1 side) =
      List.replicate p none ++ List.replicate a (some x) ++
      List.replicate gap_tolerance none ++ List.replicate b (some x) ++
      List.replicate q none)
    (h2 : (List.range proj2.H).map (rowAnchor proj2 side) =
      List.replicate p none ++ List.replicate a (some x) ++
      List.replicate (gap_tolerance + 1) none ++ List.replicate b (some x) ++
      List.replicate q none) :
    (extract_lines_from_side proj1 side x_tolerance gap_tolerance).length = 1 ∧
    (extract_lines_from_side proj2 side x_tolerance gap_tolerance).length = 2 := by
  rw [MIN_LINE_LENGTH] at ha hb
  obtain ⟨a', rfl⟩ : ∃ a', a = a' + 1 := ⟨a - 1, by omega⟩
  obtain ⟨b', rfl⟩ : ∃ b', b = b' + 1 := ⟨b - 1, by omega⟩
  constructor
  · rw [extract_lines_from_side, h1]
    simp only [List.append_assoc]
    rw [extractGo_blanks_none, extractGo_run_start,
      extractGo_gap_extend x_tolerance gap_tolerance gap_tolerance _ _ _ _ _ _ _ _
        (by omega) (by push_cast; ring) (by push_cast; ring),
      extractGo_run_extend x_tolerance gap_tolerance x b']
    obtain ⟨l2, heq⟩ := extractGo_tail_blanks x_tolerance gap_tolerance q
      (0 + p + (a' + 1) + gap_tolerance + (b' + 1)) 0 []
      (x : ℤ) ((0 + p : ℕ) : ℤ)
      (((0 + p + (a' + 1) + gap_tolerance : ℕ) : ℤ) + (b' : ℤ))
      (((0 + p + (a' + 1) + gap_tolerance : ℕ) : ℤ) + (b' : ℤ) - ((0 + p : ℕ) : ℤ) + 1)
      (by rw [MIN_LINE_LENGTH]; push_cast; omega) (by push_cast; omega)
      (by push_cast; ring)
    rw [heq]
    simp
  · rw [extract_lines_from_side, h2]
    simp only [List.append_assoc]
    rw [List.replicate_succ' gap_tolerance (none : Option ℕ), List.append_assoc,
      extractGo_blanks_none, extractGo_run_start,
      extractGo_gap_extend x_tolerance gap_tolerance gap_tolerance _ _ _ _ _ _ _ _
        (by omega) (by push_cast; ring) (by push_cast; ring),
      List.singleton_append, extractGo,
      if_neg (by omega : ¬ (0 + gap_tolerance + 1 ≤ gap_tolerance)),
      if_pos (by rw [MIN_LINE_LENGTH]; push_cast; omega : (MIN_LINE_LENGTH : ℤ) ≤
        ((0 + p + (a' + 1) : ℕ) : ℤ) + (gap_tolerance : ℤ) - 1 - ((0 + p : ℕ) : ℤ) + 1),
      extractGo_run_start]
    obtain ⟨l2, heq⟩ := extractGo_tail_blanks x_tolerance gap_tolerance q
      (0 + p + (a' + 1) + gap_tolerance + 1 + (b' + 1)) 0 _
      (x : ℤ) ((0 + p + (a' + 1) + gap_tolerance + 1 : ℕ) : ℤ)
      (((0 + p + (a' + 1) + gap_tolerance + 1 : ℕ) : ℤ) + (b' : ℤ)) ((b' : ℤ) + 1)
      (by rw [MIN_LINE_LENGTH]; push_cast; omega) (by push_cast; omega)
      (by push_cast; ring)
    rw [heq]
    simp

/-- Witness for C8 at concrete rasters: `projC8a` has two 12-row runs separated
by a 5-row gap and is extracted as one segment with `gap_tolerance = 5`;
`projC8b` separates them by 6 rows and is extracted as two segments. -/
theorem C8_witness :
    (extract_lines_from_side projC8a Side.left 3 5).length = 1 ∧
    (extract_lines_from_side projC8b Side.left 3 5).length = 2 :=
  C8_gap_tolerance projC8a projC8b Side.left 3 5 2 12 12 3 0
    (by decide) (by decide) (by decide) (by decide)

theorem length_filter_map_eq {α β : Type} (f : α → β) (p : β → Bool) (q : α → Bool)
    (hpq : ∀ a, p (f a) = q a) :
    ∀ l : List α, ((l.map f).filter p).length = (l.filter q).length := by
  intro l
  induction l with
  | nil => rfl
  | cons a l ih =>
    simp only [List.map_cons, List.filter_cons, hpq a]
    cases q a <;> simp [ih]

theorem insertionSort_map_half (L : List ℤ) :
    List.insertionSort (· ≤ ·) (L.map (fun z : ℤ => (z : ℚ) / 2)) =
    (List.insertionSort (· ≤ ·) L).map (fun z : ℤ => (z : ℚ) / 2) := by
  have hp : List.Perm
      (List.insertionSort (· ≤ ·) (L.map (fun z : ℤ => (z : ℚ) / 2)))
      ((List.insertionSort (· ≤ ·) L).map (fun z : ℤ => (z : ℚ) / 2)) :=
    (List.perm_insertionSort _ _).trans
      (((List.perm_insertionSort _ L).symm).map _)
  have hs1 : List.Sorted (· ≤ ·)
      (List.insertionSort (· ≤ ·) (L.map (fun z : ℤ => (z : ℚ) / 2))) :=
    List.sorted_insertionSort _ _
  have hs2 : List.Sorted (· ≤ ·)
      ((List.insertionSort (· ≤ ·) L).map (fun z : ℤ => (z : ℚ) / 2)) := by
    refine List.Pairwise.map _ ?_ (List.sorted_insertionSort (· ≤ ·) L)
    intro a b hab
    have h : (a : ℚ) ≤ (b : ℚ) := by exact_mod_cast hab
    show (a : ℚ) / 2 ≤ (b : ℚ) / 2
    linarith
  exact List.eq_of_perm_of_sorted hp hs1 hs2

theorem gapList_map_half (l : List ℤ) :
    gapList (l.map (fun z : ℤ => (z : ℚ) / 2)) =
    (gapListZ l).map (fun z : ℤ => (z : ℚ) / 2) := by
  have hD : ∀ j : ℕ, (l.map (fun z : ℤ => (z : ℚ) / 2)).getD j 0 =
      ((l.getD j 0 : ℤ) : ℚ) / 2 := by
    intro j
    rw [List.getD_eq_getElem?_getD, List.getD_eq_getElem?_getD, List.getElem?_map]
    cases l[j]? with
    | none => simp
    | some v => simp
  rw [gapList, gapListZ, List.length_map, List.map_map]
  apply List.map_congr_left
  intro i _
  simp only [Function.comp]
  rw [hD, hD]
  push_cast
  ring

theorem group_eq_fast (segments : List RunSeg) (th : ℤ) :
    group_vertical_segments segments th = group_vertical_segmentsFast segments th := by
  rw [group_vertical_segments, group_vertical_segmentsFast]
  by_cases hs : segments = []
  · rw [if_pos hs, if_pos hs]
  · rw [if_neg hs, if_neg hs]
    have hmap : segments.map segCenter =
        (segments.map segCenter2).map (fun z : ℤ => (z : ℚ) / 2) := by
      rw [List.map_map]
      apply List.map_congr_left
      intro s _
      simp only [Function.comp, segCenter, segCenter2]
      push_cast
      ring
    rw [hmap, insertionSort_map_half, gapList_map_half]
    congr 1
    refine length_filter_map_eq _ _ _ ?_ _
    intro d
    rw [decide_eq_decide, div_lt_div_iff (by norm_num) (by norm_num)]
    constructor
    · intro h
      have h2 : ((2 * th : ℤ) : ℚ) < ((15 * d : ℤ) : ℚ) := by push_cast; linarith
      exact_mod_cast h2
    · intro h
      have h2 : ((2 * th : ℤ) : ℚ) < ((15 * d : ℤ) : ℚ) := by exact_mod_cast h
      push_cast at h2
      linarith

theorem count_eq_fast (g : Raster) (th : ℤ) :
    count_vertical_segments g th = count_vertical_segmentsFast g th := by
  rw [count_vertical_segments, count_vertical_segmentsFast, group_eq_fast]

theorem spec_row_count_eq_fast (g : Raster) (th : ℤ) :
    spec_row_count g th = spec_row_countFast g th := by
  rw [spec_row_count, spec_row_countFast, group_eq_fast]

/-- Claim C4: whenever the detected row-band count exceeds the hard ceiling
`MAX_ROWS = 20`, `_count_vertical_segments` aborts with a diagnostic naming the
too-many-rows condition instead of returning a row count (source 1457–1458).
The guard is stated on `finish_row_count`, the final-guard stage of
`_count_vertical_segments`: the code's own grouping threshold of
`height / 15` caps the reachable level count at 15, so no raster drives the
full pipeline into this branch — the guard itself is what the claim cites. -/
theorem C4_too_many_rows (row_count : ℕ) (h : MAX_ROWS < row_count) :
    finish_row_count row_count =
      Except.error ("Found too many rows: " ++ toString row_count) := by
  rw [finish_row_count, if_pos h]

/-- Witness for C4 at `row_count = 21`. -/
theorem C4_witness :
    MAX_ROWS < 21 ∧ finish_row_count 21 =
      Except.error ("Found too many rows: " ++ toString 21) :=
  ⟨by decide, C4_too_many_rows 21 (by decide)⟩

/-- Claim C5 (amended): the row count follows the spec's long-segment /
sorted-midpoint / significant-gap formula, except that the gap threshold
divides the boundary raster's *own* height by 15 — the `total_height`
argument of `_count_vertical_segments` is ignored (source 1446 passes
`height = combined_boundary.shape[0]` to `_group_vertical_segments`). -/
theorem C5_row_count (g : Raster) (total_height : ℤ)
    (h0 : ¬ g.H * g.W = 0) (hseg : ¬ count_segments_all g = [])
    (hle : spec_row_count g (g.H : ℤ) ≤ MAX_ROWS) :
    count_vertical_segments g total_height = Except.ok (spec_row_count g (g.H : ℤ)) := by
  rw [MAX_ROWS, spec_row_count] at hle
  rw [count_vertical_segments, if_neg h0, if_neg hseg, finish_row_count, MAX_ROWS,
    spec_row_count, if_neg (by omega)]

/-- Counterexample to C5 as stated: `gridC5` is a 150×7 raster whose seven
column runs have midpoints 10, 18, …, 58 (consecutive gaps of 8).  With
`total_height = 100` the spec's formula (threshold `100/15 ≈ 6.67`) yields 7
rows, but the code returns 5: its threshold is `150/15 = 10` from the raster's
own height, so no gap is significant. -/
theorem C5_counterexample :
    count_vertical_segments gridC5 100 = Except.ok 5 ∧
    spec_row_count gridC5 100 = 7 := by
  constructor
  · rw [count_eq_fast]
    rfl
  · rw [spec_row_count_eq_fast]
    decide

/-- Witness for C5 on `gridW5`, a 150×1 raster with five 21-row clusters whose
midpoints are 60 apart (significant against `150/15 = 10`), giving
`max 5 (4+1) = 5` rows. -/
theorem C5_witness :
    count_vertical_segments gridW5 999 = Except.ok (spec_row_count gridW5 (gridW5.H : ℤ)) :=
  C5_row_count gridW5 999 (by decide) (by decide)
    (by rw [spec_row_count_eq_fast]; decide)

/-- Claim C9: when the combined boundary (OR of the directional projections and
the vertical mask) has no nonzero pixel, `_find_map_boundaries` returns `None`
and `analyze_grid_structure` propagates it — no `GridParams` is produced and
no fault is raised. -/
theorem C9_no_boundary (edges vmask : Raster)
    (hex_info : BoundaryDict → BoundaryDict)
    (h : ∀ y < edges.H, ∀ x < edges.W, (combined_boundary edges vmask).pix y x = false) :
    find_map_boundaries edges vmask hex_info = none ∧
    ∀ expected_tiles : ℤ,
      analyze_grid_structure edges vmask hex_info expected_tiles = none := by
  have hnz : nonzeroCoords (combined_boundary edges vmask) = [] := by
    rw [nonzeroCoords]
    rw [List.flatMap_eq_nil_iff]
    intro y hy
    rw [List.mem_range] at hy
    have hfil : (List.range (combined_boundary edges vmask).W).filter
        (fun x => (combined_boundary edges vmask).pix y x) = [] := by
      rw [List.filter_eq_nil_iff]
      intro x hx
      rw [List.mem_range] at hx
      rw [h y hy x hx]
      simp
    rw [hfil, List.map_nil]
  have hfind : find_map_boundaries edges vmask hex_info = none := by
    rw [find_map_boundaries, if_pos hnz]
  refine ⟨hfind, fun expected_tiles => ?_⟩
  rw [analyze_grid_structure, hfind]

/-- Witness for C9 on an entirely blank 4×5 edge raster and blank mask. -/
theorem C9_witness :
    find_map_boundaries edges0 vmask0 id = none ∧
    analyze_grid_structure edges0 vmask0 id 42 = none := by
  have h := C9_no_boundary edges0 vmask0 id (by decide)
  exact ⟨h.1, h.2 42⟩

/-- Claim C6 (amended): with a solved `hex_width`, `hex_height` and
`vertical_spacing`, and `center_spacing` absent or equal to `hex_width`, the
assembled `GridParams` satisfy the spec's equations with the halves taken by
*floor* division: `start_x = left + hex_width // 2`,
`start_y = top + hex_height // 2`, `spacing_x = hex_width`,
`spacing_y = vertical_spacing`, `row_offset = spacing_x // 2`. -/
theorem C6_grid_params (b : BoundaryDict) (expected_tiles hw hh : ℤ) (v : ℚ)
    (hhw : b.hex_width = some hw) (hhh : b.hex_height = some hh)
    (hv : b.vertical_spacing = some v) (hcs : b.center_spacing.getD hw = hw) :
    (calculate_grid_from_boundaries b expected_tiles).start_x =
      b.left + Int.fdiv hw 2 ∧
    (calculate_grid_from_boundaries b expected_tiles).start_y =
      b.top + Int.fdiv hh 2 ∧
    (calculate_grid_from_boundaries b expected_tiles).spacing_x = hw ∧
    (calculate_grid_from_boundaries b expected_tiles).spacing_y = v ∧
    (calculate_grid_from_boundaries b expected_tiles).row_offset =
      Int.fdiv hw 2 := by
  rw [calculate_grid_from_boundaries]
  simp only [hhw, hhh, hv, Option.getD_some]
  rw [hcs]
  simp

/-- Counterexample to C6 as stated: with `hex_width = 61` and `left = 0` the
code sets `start_x = 0 + 61 // 2 = 30`, while the spec's
`startX = boundaryLeft + hexWidth/2` gives `30.5`. -/
theorem C6_counterexample :
    ((calculate_grid_from_boundaries bC6 50).start_x : ℚ) ≠
      (bC6.left : ℚ) + (61 : ℚ) / 2 := by
  have hx : (calculate_grid_from_boundaries bC6 50).start_x = 30 := rfl
  have hl : bC6.left = 0 := rfl
  rw [hx, hl]
  norm_num

/-- Witness for C6 on a concrete solved boundary dict with even
`hex_width = hex_height = 60` and `vertical_spacing = 45`. -/
theorem C6_witness :
    (calculate_grid_from_boundaries bW6 48).start_x = bW6.left + Int.fdiv 60 2 ∧
    (calculate_grid_from_boundaries bW6 48).start_y = bW6.top + Int.fdiv 60 2 ∧
    (calculate_grid_from_boundaries bW6 48).spacing_x = 60 ∧
    (calculate_grid_from_boundaries bW6 48).spacing_y = 45 ∧
    (calculate_grid_from_boundaries bW6 48).row_offset = Int.fdiv 60 2 :=
  C6_grid_params bW6 48 60 60 45 rfl rfl rfl (by decide)

end GridAnalyzer
